import Mathlib

/-!
Verification of the analysis engine of `grading.py`.

The Python module operates on rows `[student_id, term] ++ scores`
(strings for the first two fields, numbers afterwards).  Scores are
modelled as rationals, Python dicts (which preserve insertion order
and overwrite on repeated assignment) as insertion-ordered
association lists, and the one function that can raise an exception
(`analyze_performance_trends`, via division by zero) as a function
into `Except Unit`.
-/

/-- One input row: `row[0]` is the student id, `row[1]` the term
(`"1"` or `"2"` in well-formed data) and `row[2:]` the scores.  The
dataset invariant of the spec is that `scores` has exactly 8 entries,
one per subject in the fixed subject order. -/
structure Record where
  sid : String
  term : String
  scores : List ℚ
deriving DecidableEq

instance : Inhabited Record := ⟨⟨"", "", []⟩⟩

/-- `row[subject_index + 2]`: the score of subject number `i` in a row. -/
def score (i : ℕ) (r : Record) : ℚ := r.scores.getD i 0

/-- An element `[term, sid, average_score]` of the list built by
`calculate_student_averages`. -/
structure StudentAvg where
  term : String
  sid : String
  avg : ℚ
deriving DecidableEq

/-- An element `[term, subject, class_average]` of the list built by
`calculate_class_averages`. -/
structure ClassAvg where
  term : String
  subject : String
  avg : ℚ
deriving DecidableEq

/-- An element `[term, subject, sid, score]` of the lists built by
`identify_highest_achieving_students` and
`identify_lowest_achieving_students`. -/
structure Achiever where
  term : String
  subject : String
  sid : String
  score : ℚ
deriving DecidableEq

/-- Lookup in an insertion-ordered association list
(Python `d[k]` / `d.get(k)`). -/
def alistFind {κ β : Type _} [DecidableEq κ] (m : List (κ × β)) (k : κ) : Option β :=
  (m.find? (fun p => decide (p.1 = k))).map (fun p => p.2)

/-- Assignment `d[k] = v` on an insertion-ordered association list:
an existing key keeps its position, a new key goes to the end,
exactly as in a Python dict. -/
def alistInsert {κ β : Type _} [DecidableEq κ] (m : List (κ × β)) (k : κ) (v : β) :
    List (κ × β) :=
  if (m.find? (fun p => decide (p.1 = k))).isSome then
    m.map (fun p => if p.1 = k then (k, v) else p)
  else m ++ [(k, v)]

/-- The nested-dict grouping pattern shared by
`calculate_student_averages` (rows grouped by student id, then term)
and `get_most_improved_student` (averages grouped by student id, then
term, the inner dict initialised with keys `keys0` mapped to default
values): each element `e` performs
`d.setdefault(key e, init)[key2 e] = val e` where
`init = {t : dflt t for t in keys0}`. -/
def buildGroups {α β : Type _} (key key2 : α → String) (val : α → β)
    (keys0 : List String) (dflt : String → β) (l : List α) :
    List (String × List (String × β)) :=
  l.foldl (fun m e =>
    alistInsert m (key e)
      (alistInsert ((alistFind m (key e)).getD (keys0.map (fun t => (t, dflt t))))
        (key2 e) (val e))) []

/-- Python `max(l, key = f)`: the first element attaining the maximal
key (`none` on an empty list, where Python would raise). -/
def maxByKey {α : Type _} (f : α → ℚ) : List α → Option α
  | [] => none
  | x :: xs => some (xs.foldl (fun best y => if f best < f y then y else best) x)

/-- Python `min(l, key = f)`: the first element attaining the minimal
key (`none` on an empty list). -/
def minByKey {α : Type _} (f : α → ℚ) : List α → Option α
  | [] => none
  | x :: xs => some (xs.foldl (fun best y => if f y < f best then y else best) x)

/-- `calculate_student_averages` from `grading.py` (lines 29-60):
group the rows into the nested dict `students[sid][term] = scores`
(later rows overwrite earlier ones for the same pair), then emit
`[term, sid, sum(scores)/len(scores)]` for every group whose score
list is non-empty. -/
def calculate_student_averages (data_list : List Record) : List StudentAvg :=
  let students := buildGroups (fun r => r.sid) (fun r => r.term) (fun r => r.scores)
    [] (fun _ => []) data_list
  students.flatMap (fun p =>
    p.2.filterMap (fun q =>
      if q.2 ≠ [] then some ⟨q.1, p.1, q.2.sum / (q.2.length : ℚ)⟩ else none))

/-- The fixed subject list shared by all aggregators. -/
def subjects : List String := ["Chi", "Eng", "Math", "GS", "CS", "Music", "VA", "PE"]

/-- `[row for row in data_list if row[1] == term]`. -/
def termData (data_list : List Record) (term : String) : List Record :=
  data_list.filter (fun row => decide (row.term = term))

/-- `calculate_class_averages` from `grading.py` (lines 62-83): for
each term `"1"`, `"2"` and each subject (by fixed index) collect the
subject scores of the rows of that term and, when the collected list
is non-empty, emit `[term, subject, mean]`. -/
def calculate_class_averages (data_list : List Record) : List ClassAvg :=
  (["1", "2"]).flatMap (fun term =>
    subjects.enum.filterMap (fun p =>
      let subject_scores := (termData data_list term).map (score p.1)
      if subject_scores ≠ [] then
        some ⟨term, p.2, subject_scores.sum / (subject_scores.length : ℚ)⟩
      else none))

/-- `identify_highest_achieving_students` from `grading.py` (lines
85-118): for each term and subject, filter the rows to the term and,
when the filtered list is non-empty, take Python
`max(rows, key = score at the subject index)` (first maximum wins). -/
def identify_highest_achieving_students (data_list : List Record) : List Achiever :=
  (["1", "2"]).flatMap (fun term =>
    subjects.enum.filterMap (fun p =>
      (maxByKey (score p.1) (termData data_list term)).map
        (fun r => ⟨term, p.2, r.sid, score p.1 r⟩)))

/-- `identify_lowest_achieving_students` from `grading.py` (lines
120-153): as above with `min` (first minimum wins). -/
def identify_lowest_achieving_students (data_list : List Record) : List Achiever :=
  (["1", "2"]).flatMap (fun term =>
    subjects.enum.filterMap (fun p =>
      (minByKey (score p.1) (termData data_list term)).map
        (fun r => ⟨term, p.2, r.sid, score p.1 r⟩)))

/-- Round-half-to-even to an integer, the tie rule of Python `round`. -/
def roundHalfEven (q : ℚ) : ℤ :=
  if q - ⌊q⌋ < 1 / 2 then ⌊q⌋
  else if q - ⌊q⌋ > 1 / 2 then ⌊q⌋ + 1
  else if ⌊q⌋ % 2 = 0 then ⌊q⌋ else ⌊q⌋ + 1

/-- Python `round(q, 2)`. -/
def round2 (q : ℚ) : ℚ := (roundHalfEven (q * 100) : ℚ) / 100

/-- `analyze_performance_trends` from `grading.py` (lines 155-195):
recompute the class averages, then for each subject in fixed order
look up (first match) the term-`"1"` and term-`"2"` class averages;
when both are present append
`[subject, round(((t2 - t1) / t1) * 100, 2)]`.  A zero term-1 average
makes the Python division raise `ZeroDivisionError`, modelled as
`Except.error ()`. -/
def analyze_performance_trends (data_list : List Record) :
    Except Unit (List (String × ℚ)) :=
  let class_averages := calculate_class_averages data_list
  subjects.foldlM (fun acc subject =>
    match class_averages.find? (fun avg => decide (avg.term = "1" ∧ avg.subject = subject)),
          class_averages.find? (fun avg => decide (avg.term = "2" ∧ avg.subject = subject)) with
    | some a1, some a2 =>
        if a1.avg = 0 then Except.error ()
        else Except.ok (acc ++ [(subject, round2 ((a2.avg - a1.avg) / a1.avg * 100))])
    | _, _ => Except.ok acc) []

/-- `get_most_improved_student` from `grading.py` (lines 197-222):
group the averages into `student_term_avg[sid] = {'1': None, '2': None}`
then `student_term_avg[sid][term] = avg`; a student with both slots
set contributes `(sid, t2 - t1)`; the result is the sid of the first
maximal improvement, `None` when no student qualifies. -/
def get_most_improved_student (student_averages : List StudentAvg) : Option String :=
  let student_term_avg := buildGroups (fun e => e.sid) (fun e => e.term)
    (fun e => some e.avg) ["1", "2"] (fun _ => none) student_averages
  let improvements := student_term_avg.filterMap (fun p =>
    match alistFind p.2 "1", alistFind p.2 "2" with
    | some (some a1), some (some a2) => some (p.1, a2 - a1)
    | _, _ => none)
  (maxByKey (fun x => x.2) improvements).map (fun x => x.1)

/-! ### First-maximum characterisation of Python `max` / `min` -/

theorem find?_congr {α : Type _} {p q : α → Bool} :
    ∀ (l : List α), (∀ x ∈ l, p x = q x) → l.find? p = l.find? q := by
  intro l
  induction l with
  | nil => intro _; rfl
  | cons x xs ih =>
    intro h
    have hx := h x (by simp)
    rw [List.find?_cons, List.find?_cons, ih (fun y hy => h y (by simp [hy])), hx]

theorem maxByKey_eq_find? {α : Type _} (f : α → ℚ) :
    ∀ (l : List α), maxByKey f l = l.find? (fun y => decide (∀ z ∈ l, f z ≤ f y)) := by
  intro l
  cases l with
  | nil => rfl
  | cons x xs =>
    induction xs generalizing x with
    | nil => simp [maxByKey, List.find?]
    | cons y ys ih =>
      have hfold : maxByKey f (x :: y :: ys) = maxByKey f ((if f x < f y then y else x) :: ys) := by
        simp only [maxByKey, List.foldl]
      rw [hfold, ih]
      by_cases hxy : f x < f y
      · simp only [if_pos hxy]
        have hx : (decide (∀ z ∈ x :: y :: ys, f z ≤ f x)) = false := by
          simp only [decide_eq_false_iff_not]
          intro h
          exact absurd (h y (by simp)) (not_le.mpr hxy)
        have h1 : (x :: y :: ys).find? (fun w => decide (∀ z ∈ x :: y :: ys, f z ≤ f w)) =
            (y :: ys).find? (fun w => decide (∀ z ∈ x :: y :: ys, f z ≤ f w)) := by
          simp only [List.find?_cons, hx]
        rw [h1]
        refine find?_congr _ (fun w _ => decide_eq_decide.mpr ⟨fun h z hz => ?_, fun h z hz => ?_⟩)
        · rcases List.mem_cons.mp hz with hz | hz
          · exact hz ▸ le_trans (le_of_lt hxy) (h y (by simp))
          · exact h z hz
        · exact h z (by simp [List.mem_cons.mp hz])
      · have hyx : f y ≤ f x := not_lt.mp hxy
        simp only [if_neg hxy]
        have h2 : (x :: y :: ys).find? (fun w => decide (∀ z ∈ x :: y :: ys, f z ≤ f w)) =
            (x :: y :: ys).find? (fun w => decide (∀ z ∈ x :: ys, f z ≤ f w)) := by
          refine find?_congr _ (fun w _ => decide_eq_decide.mpr ⟨fun h z hz => ?_, fun h z hz => ?_⟩)
          · rcases List.mem_cons.mp hz with hz | hz
            · exact hz ▸ h x (by simp)
            · exact h z (by simp [hz])
          · rcases List.mem_cons.mp hz with hz | hz
            · exact hz ▸ h x (by simp)
            · rcases List.mem_cons.mp hz with hz | hz
              · exact hz ▸ le_trans hyx (h x (by simp))
              · exact h z (by simp [hz])
        rw [h2]
        by_cases hqx : (decide (∀ z ∈ x :: ys, f z ≤ f x)) = true
        · simp only [List.find?_cons, hqx]
        · have hqx' : (decide (∀ z ∈ x :: ys, f z ≤ f x)) = false :=
            Bool.eq_false_iff.mpr (fun hc => hqx hc)
          have hqy : (decide (∀ z ∈ x :: ys, f z ≤ f y)) = false := by
            simp only [decide_eq_false_iff_not]
            intro h
            apply hqx
            simp only [decide_eq_true_eq]
            intro z hz
            exact le_trans (h z hz) hyx
          simp only [List.find?_cons, hqx', hqy]

theorem minByKey_eq_maxByKey_neg {α : Type _} (f : α → ℚ) (l : List α) :
    minByKey f l = maxByKey (fun x => -f x) l := by
  cases l with
  | nil => rfl
  | cons x xs =>
    simp only [minByKey, maxByKey, Option.some.injEq]
    congr 1
    funext best y
    exact if_congr (by rw [neg_lt_neg_iff]) rfl rfl

theorem minByKey_eq_find? {α : Type _} (f : α → ℚ) (l : List α) :
    minByKey f l = l.find? (fun y => decide (∀ z ∈ l, f y ≤ f z)) := by
  rw [minByKey_eq_maxByKey_neg, maxByKey_eq_find?]
  exact find?_congr l (fun y _ => decide_eq_decide.mpr
    ⟨fun h z hz => neg_le_neg_iff.mp (h z hz), fun h z hz => neg_le_neg_iff.mpr (h z hz)⟩)

theorem maxByKey_eq_none_iff {α : Type _} (f : α → ℚ) (l : List α) :
    maxByKey f l = none ↔ l = [] := by
  cases l <;> simp [maxByKey]

theorem minByKey_eq_none_iff {α : Type _} (f : α → ℚ) (l : List α) :
    minByKey f l = none ↔ l = [] := by
  cases l <;> simp [minByKey]

theorem maxByKey_mem {α : Type _} {f : α → ℚ} {l : List α} {r : α}
    (h : maxByKey f l = some r) : r ∈ l := by
  rw [maxByKey_eq_find?] at h
  exact List.mem_of_find?_eq_some h

theorem minByKey_mem {α : Type _} {f : α → ℚ} {l : List α} {r : α}
    (h : minByKey f l = some r) : r ∈ l := by
  rw [minByKey_eq_find?] at h
  exact List.mem_of_find?_eq_some h

theorem maxByKey_le {α : Type _} {f : α → ℚ} {l : List α} {r : α}
    (h : maxByKey f l = some r) : ∀ z ∈ l, f z ≤ f r := by
  rw [maxByKey_eq_find?] at h
  have h2 := List.find?_some h
  simpa using h2

theorem minByKey_le {α : Type _} {f : α → ℚ} {l : List α} {r : α}
    (h : minByKey f l = some r) : ∀ z ∈ l, f r ≤ f z := by
  rw [minByKey_eq_find?] at h
  have h2 := List.find?_some h
  simpa using h2

/-! ### Insertion-ordered grouping: generic characterisation of the
nested-dict pattern -/

/-- Append an element to an accumulator unless already present
(how a Python dict extends its key sequence). -/
def pushNew {γ : Type _} [DecidableEq γ] (acc : List γ) (x : γ) : List γ :=
  if x ∈ acc then acc else acc ++ [x]

/-- The keys of a dict after inserting the elements of `l` in order,
starting from the key sequence `acc`: each distinct element in order
of first occurrence. -/
def firstOccFrom {γ : Type _} [DecidableEq γ] (acc : List γ) (l : List γ) : List γ :=
  l.foldl pushNew acc

theorem firstOccFrom_append_singleton {γ : Type _} [DecidableEq γ] (acc l : List γ) (x : γ) :
    firstOccFrom acc (l ++ [x]) = pushNew (firstOccFrom acc l) x := by
  simp [firstOccFrom, List.foldl_append]

theorem mem_pushNew {γ : Type _} [DecidableEq γ] {a x : γ} {acc : List γ} :
    a ∈ pushNew acc x ↔ a ∈ acc ∨ a = x := by
  by_cases h : x ∈ acc
  · simp only [pushNew, if_pos h]
    constructor
    · exact fun ha => Or.inl ha
    · rintro (ha | rfl)
      · exact ha
      · exact h
  · simp [pushNew, if_neg h, List.mem_append]

theorem mem_firstOccFrom {γ : Type _} [DecidableEq γ] (a : γ) :
    ∀ (l acc : List γ), a ∈ firstOccFrom acc l ↔ a ∈ acc ∨ a ∈ l := by
  intro l
  induction l with
  | nil => intro acc; simp [firstOccFrom]
  | cons x xs ih =>
    intro acc
    have h1 : firstOccFrom acc (x :: xs) = firstOccFrom (pushNew acc x) xs := rfl
    rw [h1, ih, mem_pushNew]
    simp [List.mem_cons, or_assoc]

theorem nodup_pushNew {γ : Type _} [DecidableEq γ] {acc : List γ} {x : γ}
    (h : acc.Nodup) : (pushNew acc x).Nodup := by
  by_cases hx : x ∈ acc
  · simpa [pushNew, if_pos hx] using h
  · simp only [pushNew, if_neg hx]
    rw [List.nodup_append]
    exact ⟨h, List.nodup_singleton x, fun a ha hmem => hx (by
      rcases List.mem_singleton.mp hmem with rfl
      exact ha)⟩

theorem nodup_firstOccFrom {γ : Type _} [DecidableEq γ] :
    ∀ (l acc : List γ), acc.Nodup → (firstOccFrom acc l).Nodup := by
  intro l
  induction l with
  | nil => intro acc h; exact h
  | cons x xs ih =>
    intro acc h
    exact ih (pushNew acc x) (nodup_pushNew h)

theorem alistFind_mapBuilt {κ β : Type _} [DecidableEq κ] (keys : List κ) (f : κ → β) (k : κ) :
    alistFind (keys.map (fun x => (x, f x))) k = if k ∈ keys then some (f k) else none := by
  induction keys with
  | nil => simp [alistFind]
  | cons a t ih =>
    by_cases h : a = k
    · subst h
      simp [alistFind, List.find?_cons]
    · have h1 : alistFind ((a, f a) :: t.map (fun x => (x, f x))) k =
          alistFind (t.map (fun x => (x, f x))) k := by
        simp [alistFind, List.find?_cons, h]
      simp only [List.map_cons]
      rw [h1, ih]
      have hka : ¬ k = a := fun hc => h hc.symm
      simp [List.mem_cons, hka]

theorem alistInsert_mapBuilt {κ β : Type _} [DecidableEq κ] (keys : List κ) (f : κ → β)
    (k0 : κ) (v : β) :
    alistInsert (keys.map (fun x => (x, f x))) k0 v =
      (pushNew keys k0).map (fun x => (x, if x = k0 then v else f x)) := by
  have hfind : ((keys.map (fun x => (x, f x))).find? (fun p => decide (p.1 = k0))).isSome =
      (alistFind (keys.map (fun x => (x, f x))) k0).isSome := by
    simp [alistFind]
  by_cases h : k0 ∈ keys
  · have hs : ((keys.map (fun x => (x, f x))).find? (fun p => decide (p.1 = k0))).isSome := by
      rw [hfind, alistFind_mapBuilt, if_pos h]
      rfl
    rw [alistInsert, if_pos hs]
    simp only [pushNew, if_pos h, List.map_map]
    refine List.map_congr_left (fun x _ => ?_)
    by_cases hx : x = k0
    · subst hx; simp
    · simp [hx]
  · have hs : ¬ ((keys.map (fun x => (x, f x))).find? (fun p => decide (p.1 = k0))).isSome := by
      rw [hfind, alistFind_mapBuilt, if_neg h]
      simp
    rw [alistInsert, if_neg hs]
    simp only [pushNew, if_neg h, List.map_append, List.map_cons, List.map_nil, if_pos rfl]
    congr 1
    refine List.map_congr_left (fun x hx => ?_)
    have : x ≠ k0 := fun hc => h (hc ▸ hx)
    simp [this]

section GroupSpec

variable {α β : Type _} (key key2 : α → String) (val : α → β)
variable (keys0 : List String) (dflt : String → β)

/-- The value a nested-dict group holds at outer key `k`, inner key
`t` after inserting all of `l`: the value of the last matching
element, or the initial value `dflt t` when none matched. -/
def lastGroupVal (l : List α) (k t : String) : β :=
  match (l.filter (fun e => decide (key e = k ∧ key2 e = t))).getLast? with
  | some e => val e
  | none => dflt t

/-- The inner dict at outer key `k` after inserting all of `l`:
initial keys `keys0` followed by the further inner keys in order of
first occurrence, each mapped to the last value written. -/
def innerGroup (l : List α) (k : String) : List (String × β) :=
  (firstOccFrom keys0 ((l.filter (fun e => decide (key e = k))).map key2)).map
    (fun t => (t, lastGroupVal key key2 val dflt l k t))

/-- The whole nested dict: outer keys in order of first occurrence,
each mapped to its inner dict. -/
def specGroups (l : List α) : List (String × List (String × β)) :=
  (firstOccFrom [] (l.map key)).map (fun k => (k, innerGroup key key2 val keys0 dflt l k))

theorem innerGroup_append_other (l : List α) (e : α) (k : String) (h : ¬ k = key e) :
    innerGroup key key2 val keys0 dflt (l ++ [e]) k = innerGroup key key2 val keys0 dflt l k := by
  have hne : decide (key e = k) = false := by
    simp only [decide_eq_false_iff_not]
    exact fun hc => h hc.symm
  have hfil : (l ++ [e]).filter (fun x => decide (key x = k)) =
      l.filter (fun x => decide (key x = k)) := by
    rw [List.filter_append]
    simp [List.filter, hne]
  have hval : ∀ t, lastGroupVal key key2 val dflt (l ++ [e]) k t =
      lastGroupVal key key2 val dflt l k t := by
    intro t
    have hne2 : decide (key e = k ∧ key2 e = t) = false := by
      simp only [decide_eq_false_iff_not]
      exact fun hc => h hc.1.symm
    have : (l ++ [e]).filter (fun x => decide (key x = k ∧ key2 x = t)) =
        l.filter (fun x => decide (key x = k ∧ key2 x = t)) := by
      rw [List.filter_append]
      simp [List.filter, hne2]
    rw [lastGroupVal, lastGroupVal, this]
  rw [innerGroup, innerGroup, hfil]
  exact List.map_congr_left (fun t _ => by rw [hval t])

theorem innerGroup_append_self (l : List α) (e : α) :
    innerGroup key key2 val keys0 dflt (l ++ [e]) (key e) =
      (pushNew (firstOccFrom keys0 ((l.filter (fun x => decide (key x = key e))).map key2))
          (key2 e)).map
        (fun t => (t, if t = key2 e then val e
          else lastGroupVal key key2 val dflt l (key e) t)) := by
  have hfil : (l ++ [e]).filter (fun x => decide (key x = key e)) =
      l.filter (fun x => decide (key x = key e)) ++ [e] := by
    rw [List.filter_append]
    simp [List.filter]
  have hkeys : firstOccFrom keys0 (((l ++ [e]).filter (fun x => decide (key x = key e))).map key2) =
      pushNew (firstOccFrom keys0 ((l.filter (fun x => decide (key x = key e))).map key2))
        (key2 e) := by
    rw [hfil, List.map_append, List.map_cons, List.map_nil, firstOccFrom_append_singleton]
  have hval : ∀ t, lastGroupVal key key2 val dflt (l ++ [e]) (key e) t =
      if t = key2 e then val e else lastGroupVal key key2 val dflt l (key e) t := by
    intro t
    by_cases ht : t = key2 e
    · subst ht
      have : (l ++ [e]).filter (fun x => decide (key x = key e ∧ key2 x = key2 e)) =
          l.filter (fun x => decide (key x = key e ∧ key2 x = key2 e)) ++ [e] := by
        rw [List.filter_append]
        simp [List.filter]
      rw [if_pos rfl, lastGroupVal, this, List.getLast?_concat]
    · have hfe : decide (key2 e = t) = false := by
        simp only [decide_eq_false_iff_not]
        exact fun hc => ht hc.symm
      have : (l ++ [e]).filter (fun x => decide (key x = key e ∧ key2 x = t)) =
          l.filter (fun x => decide (key x = key e ∧ key2 x = t)) := by
        rw [List.filter_append]
        simp [List.filter, hfe]
      rw [if_neg ht, lastGroupVal, lastGroupVal, this]
  rw [innerGroup, hkeys]
  exact List.map_congr_left (fun t _ => by rw [hval t])

theorem innerGroup_of_not_mem (l : List α) (k : String) (h : ¬ k ∈ l.map key) :
    innerGroup key key2 val keys0 dflt l k = keys0.map (fun t => (t, dflt t)) := by
  have hfil : l.filter (fun x => decide (key x = k)) = [] := by
    rw [List.filter_eq_nil_iff]
    intro a ha
    simp only [decide_eq_true_eq]
    exact fun hc => h (hc ▸ List.mem_map_of_mem key ha)
  have hval : ∀ t, lastGroupVal key key2 val dflt l k t = dflt t := by
    intro t
    have : l.filter (fun x => decide (key x = k ∧ key2 x = t)) = [] := by
      rw [List.filter_eq_nil_iff]
      intro a ha
      simp only [decide_eq_true_eq]
      exact fun hc => h (hc.1 ▸ List.mem_map_of_mem key ha)
    rw [lastGroupVal, this]
    rfl
  rw [innerGroup, hfil]
  have : firstOccFrom keys0 (List.map key2 []) = keys0 := rfl
  rw [this]
  exact List.map_congr_left (fun t _ => by rw [hval t])

theorem buildGroups_eq_spec :
    ∀ l : List α, buildGroups key key2 val keys0 dflt l = specGroups key key2 val keys0 dflt l := by
  intro l
  induction l using List.reverseRecOn with
  | nil => rfl
  | append_singleton l e ih =>
    have hstep : buildGroups key key2 val keys0 dflt (l ++ [e]) =
        alistInsert (buildGroups key key2 val keys0 dflt l) (key e)
          (alistInsert ((alistFind (buildGroups key key2 val keys0 dflt l) (key e)).getD
              (keys0.map (fun t => (t, dflt t)))) (key2 e) (val e)) := by
      simp [buildGroups, List.foldl_append]
    rw [hstep, ih]
    have hfind : (alistFind (specGroups key key2 val keys0 dflt l) (key e)).getD
        (keys0.map (fun t => (t, dflt t))) = innerGroup key key2 val keys0 dflt l (key e) := by
      rw [specGroups, alistFind_mapBuilt]
      by_cases h : key e ∈ firstOccFrom [] (l.map key)
      · rw [if_pos h]
        rfl
      · rw [if_neg h]
        have hnm : ¬ key e ∈ l.map key := fun hc =>
          h ((mem_firstOccFrom (key e) (l.map key) []).mpr (Or.inr hc))
        rw [innerGroup_of_not_mem key key2 val keys0 dflt l (key e) hnm]
        rfl
    rw [hfind, innerGroup, alistInsert_mapBuilt, specGroups, alistInsert_mapBuilt]
    have hK : firstOccFrom ([] : List String) ((l ++ [e]).map key) =
        pushNew (firstOccFrom [] (l.map key)) (key e) := by
      rw [List.map_append, List.map_cons, List.map_nil, firstOccFrom_append_singleton]
    rw [specGroups, hK]
    refine List.map_congr_left (fun k hk => ?_)
    by_cases hke : k = key e
    · subst hke
      rw [if_pos rfl, innerGroup_append_self]
    · rw [if_neg hke, innerGroup_append_other key key2 val keys0 dflt l e k hke]

end GroupSpec

/-! ### Specification forms of the student-average pipeline -/

/-- The distinct student ids of a dataset, in order of first
occurrence. -/
def studentOrder (rows : List Record) : List String :=
  firstOccFrom [] (rows.map (fun r => r.sid))

/-- The distinct terms recorded for `sid`, in order of first
occurrence. -/
def studentTerms (rows : List Record) (sid : String) : List String :=
  firstOccFrom [] ((rows.filter (fun r => decide (r.sid = sid))).map (fun r => r.term))

/-- The score list of the last record for the pair `(sid, t)`
(last-write-wins), `[]` when the pair never occurs. -/
def lastScores (rows : List Record) (sid t : String) : List ℚ :=
  match (rows.filter (fun r => decide (r.sid = sid ∧ r.term = t))).getLast? with
  | some r => r.scores
  | none => []

theorem alistFind_innerGroup {α β : Type _} (key key2 : α → String) (val : α → β)
    (keys0 : List String) (dflt : String → β) (l : List α) (k t : String)
    (ht : t ∈ firstOccFrom keys0 ((l.filter (fun e => decide (key e = k))).map key2)) :
    alistFind (innerGroup key key2 val keys0 dflt l k) t =
      some (lastGroupVal key key2 val dflt l k t) := by
  rw [innerGroup, alistFind_mapBuilt, if_pos ht]

theorem filterMap_ext {α β : Type _} {f g : α → Option β} (h : ∀ a, f a = g a)
    (l : List α) : l.filterMap f = l.filterMap g := by
  congr 1
  funext a
  exact h a

theorem lastScores_eq (rows : List Record) (sid t : String) :
    lastScores rows sid t = lastGroupVal (fun r => r.sid) (fun r => r.term)
      (fun r => r.scores) (fun _ => []) rows sid t := by
  unfold lastScores lastGroupVal
  cases h : (rows.filter (fun r => decide (r.sid = sid ∧ r.term = t))).getLast? <;> rfl

theorem calculate_student_averages_spec (rows : List Record) :
    calculate_student_averages rows = (studentOrder rows).flatMap (fun sid =>
      (studentTerms rows sid).filterMap (fun t =>
        if lastScores rows sid t ≠ [] then
          some ⟨t, sid, (lastScores rows sid t).sum / ((lastScores rows sid t).length : ℚ)⟩
        else none)) := by
  simp only [calculate_student_averages]
  rw [buildGroups_eq_spec, specGroups, List.flatMap_map]
  rw [studentOrder]
  congr 1
  funext sid
  rw [innerGroup, List.filterMap_map, studentTerms]
  refine filterMap_ext (fun t => ?_) _
  simp [lastScores_eq]

theorem get_most_improved_aux (l : List StudentAvg) (sid t : String) (ht : t ∈ (["1", "2"] : List String)) :
    alistFind (innerGroup (fun e => e.sid) (fun e => e.term) (fun e => some e.avg)
        ["1", "2"] (fun _ => none) l sid) t =
      some (lastGroupVal (fun e => e.sid) (fun e => e.term) (fun e => some e.avg)
        (fun _ => none) l sid t) :=
  alistFind_innerGroup _ _ _ _ _ l sid t
    ((mem_firstOccFrom t _ _).mpr (Or.inl ht))

/-- The per-student averages a student qualifies with: the average of
the last term-`"1"` entry and of the last term-`"2"` entry for that
student, when they exist. -/
def lastTermAvg (l : List StudentAvg) (sid t : String) : Option ℚ :=
  match (l.filter (fun e => decide (e.sid = sid ∧ e.term = t))).getLast? with
  | some e => some e.avg
  | none => none

/-- Spec form of the most-improved computation (spec section 4.6):
students in order of first occurrence, qualifying exactly when both a
term-1 and a term-2 average are present, each contributing
`term2 - term1`. -/
def qualifyingImprovements (l : List StudentAvg) : List (String × ℚ) :=
  (firstOccFrom [] (l.map (fun e => e.sid))).filterMap (fun sid =>
    match lastTermAvg l sid "1", lastTermAvg l sid "2" with
    | some a1, some a2 => some (sid, a2 - a1)
    | _, _ => none)

/-- Spec form of `get_most_improved_student`: the first student (in
first-occurrence order) whose improvement is maximal among the
qualifying students, `none` when no student qualifies. -/
def mostImprovedSpec (l : List StudentAvg) : Option String :=
  ((qualifyingImprovements l).find?
    (fun p => decide (∀ q ∈ qualifyingImprovements l, q.2 ≤ p.2))).map (fun p => p.1)

theorem get_most_improved_student_spec (l : List StudentAvg) :
    get_most_improved_student l = mostImprovedSpec l := by
  simp only [get_most_improved_student]
  rw [buildGroups_eq_spec, specGroups, List.filterMap_map]
  have himp : (firstOccFrom [] (l.map (fun e => e.sid))).filterMap
      ((fun p : String × List (String × Option ℚ) =>
        match alistFind p.2 "1", alistFind p.2 "2" with
        | some (some a1), some (some a2) => some (p.1, a2 - a1)
        | _, _ => none) ∘
        (fun k => (k, innerGroup (fun e => e.sid) (fun e => e.term) (fun e => some e.avg)
          ["1", "2"] (fun _ => none) l k))) = qualifyingImprovements l := by
    rw [qualifyingImprovements]
    refine filterMap_ext (fun sid => ?_) _
    show (match alistFind (innerGroup (fun e => e.sid) (fun e => e.term)
          (fun e => some e.avg) ["1", "2"] (fun _ => none) l sid) "1",
        alistFind (innerGroup (fun e => e.sid) (fun e => e.term)
          (fun e => some e.avg) ["1", "2"] (fun _ => none) l sid) "2" with
      | some (some a1), some (some a2) => some (sid, a2 - a1)
      | _, _ => none) =
      (match lastTermAvg l sid "1", lastTermAvg l sid "2" with
      | some a1, some a2 => some (sid, a2 - a1)
      | _, _ => none)
    rw [get_most_improved_aux l sid "1" (by simp), get_most_improved_aux l sid "2" (by simp)]
    have h1 : lastGroupVal (fun e => e.sid) (fun e => e.term) (fun e => some e.avg)
        (fun _ => none) l sid "1" = lastTermAvg l sid "1" := by
      rw [lastGroupVal, lastTermAvg]
      cases (l.filter (fun e => decide (e.sid = sid ∧ e.term = "1"))).getLast? <;> rfl
    have h2 : lastGroupVal (fun e => e.sid) (fun e => e.term) (fun e => some e.avg)
        (fun _ => none) l sid "2" = lastTermAvg l sid "2" := by
      rw [lastGroupVal, lastTermAvg]
      cases (l.filter (fun e => decide (e.sid = sid ∧ e.term = "2"))).getLast? <;> rfl
    rw [h1, h2]
    cases lastTermAvg l sid "1" <;> cases lastTermAvg l sid "2" <;> rfl
  rw [himp, mostImprovedSpec, maxByKey_eq_find?]

/-! ### Specification form of the class averages -/

/-- The class average of subject number `i` in term `t`: the mean of
that subject over the records of the term. -/
def classAvgAt (rows : List Record) (t : String) (i : ℕ) : ℚ :=
  ((termData rows t).map (score i)).sum / (((termData rows t).map (score i)).length : ℚ)

/-- Spec form of `calculate_class_averages` (spec section 4.3): one
entry per (term, subject) combination with at least one record of
that term, outer order `["1", "2"]`, inner order the fixed subject
list; combinations with no contributing record are omitted. -/
def classAveragesSpec (rows : List Record) : List ClassAvg :=
  (["1", "2"]).flatMap (fun t =>
    subjects.enum.filterMap (fun p =>
      if rows.any (fun r => decide (r.term = t)) then
        some ⟨t, p.2, classAvgAt rows t p.1⟩
      else none))

theorem termData_eq_nil_iff (rows : List Record) (t : String) :
    termData rows t = [] ↔ ¬ ∃ r ∈ rows, r.term = t := by
  rw [termData, List.filter_eq_nil_iff]
  simp

theorem any_term_iff (rows : List Record) (t : String) :
    rows.any (fun r => decide (r.term = t)) = true ↔ ∃ r ∈ rows, r.term = t := by
  rw [List.any_eq_true]
  simp

theorem calculate_class_averages_eq_spec (rows : List Record) :
    calculate_class_averages rows = classAveragesSpec rows := by
  rw [calculate_class_averages, classAveragesSpec]
  congr 1
  funext t
  refine filterMap_ext (fun p => ?_) _
  by_cases h : ∃ r ∈ rows, r.term = t
  · have h1 : (termData rows t).map (score p.1) ≠ [] := by
      rw [Ne, List.map_eq_nil_iff, termData_eq_nil_iff]
      exact fun hc => hc h
    have h2 : rows.any (fun r => decide (r.term = t)) = true := (any_term_iff rows t).mpr h
    rw [if_pos h1, if_pos h2]
    rfl
  · have h1 : ¬ ((termData rows t).map (score p.1) ≠ []) := by
      rw [Ne, List.map_eq_nil_iff, termData_eq_nil_iff]
      exact fun hc => hc h
    have h2 : ¬ (rows.any (fun r => decide (r.term = t)) = true) := by
      rw [any_term_iff]
      exact h
    rw [if_neg h1, if_neg h2]

theorem filterMap_eq_map_of_forall {α β : Type _} {f : α → Option β} {g : α → β} :
    ∀ (l : List α), (∀ a ∈ l, f a = some (g a)) → l.filterMap f = l.map g := by
  intro l
  induction l with
  | nil => intro _; rfl
  | cons x xs ih =>
    intro h
    rw [List.filterMap_cons, h x (by simp), List.map_cons, ih (fun a ha => h a (by simp [ha]))]

theorem calculate_class_averages_length (rows : List Record) :
    (calculate_class_averages rows).length =
      (if termData rows "1" = [] then 0 else 8) +
        (if termData rows "2" = [] then 0 else 8) := by
  rw [calculate_class_averages_eq_spec, classAveragesSpec]
  have hblock : ∀ t, (subjects.enum.filterMap (fun p =>
      if rows.any (fun r => decide (r.term = t)) then
        some (⟨t, p.2, classAvgAt rows t p.1⟩ : ClassAvg)
      else none)).length = if termData rows t = [] then 0 else 8 := by
    intro t
    by_cases h : ∃ r ∈ rows, r.term = t
    · have ht : ¬ termData rows t = [] := by
        rw [termData_eq_nil_iff]
        exact fun hc => hc h
      have h2 : rows.any (fun r => decide (r.term = t)) = true := (any_term_iff rows t).mpr h
      rw [if_neg ht,
        filterMap_eq_map_of_forall _ (fun p _ => by rw [if_pos h2]),
        List.length_map, List.enum_length]
      rfl
    · have ht : termData rows t = [] := (termData_eq_nil_iff rows t).mpr h
      have h2 : ¬ (rows.any (fun r => decide (r.term = t)) = true) := by
        rw [any_term_iff]
        exact h
      rw [if_pos ht, List.filterMap_eq_nil_iff.mpr (fun p _ => by rw [if_neg h2]),
        List.length_nil]
  rw [List.flatMap_cons, List.flatMap_cons, List.flatMap_nil, List.append_nil,
    List.length_append, hblock "1", hblock "2"]

/-! ### Block structure of the extremum identifiers -/

/-- The term-`t` block of `identify_highest_achieving_students`. -/
def highBlock (rows : List Record) (t : String) : List Achiever :=
  subjects.enum.filterMap (fun p =>
    (maxByKey (score p.1) (termData rows t)).map
      (fun r => ⟨t, p.2, r.sid, score p.1 r⟩))

/-- The term-`t` block of `identify_lowest_achieving_students`. -/
def lowBlock (rows : List Record) (t : String) : List Achiever :=
  subjects.enum.filterMap (fun p =>
    (minByKey (score p.1) (termData rows t)).map
      (fun r => ⟨t, p.2, r.sid, score p.1 r⟩))

theorem identify_high_eq_append (rows : List Record) :
    identify_highest_achieving_students rows = highBlock rows "1" ++ highBlock rows "2" := by
  rw [identify_highest_achieving_students, List.flatMap_cons, List.flatMap_cons,
    List.flatMap_nil, List.append_nil, highBlock, highBlock]

theorem identify_low_eq_append (rows : List Record) :
    identify_lowest_achieving_students rows = lowBlock rows "1" ++ lowBlock rows "2" := by
  rw [identify_lowest_achieving_students, List.flatMap_cons, List.flatMap_cons,
    List.flatMap_nil, List.append_nil, lowBlock, lowBlock]

/-- The record Python `max` picks in term `t` at subject index `i`
(meaningful when the term has records). -/
def topRecord (rows : List Record) (t : String) (i : ℕ) : Record :=
  (maxByKey (score i) (termData rows t)).getD default

/-- The record Python `min` picks in term `t` at subject index `i`. -/
def bottomRecord (rows : List Record) (t : String) (i : ℕ) : Record :=
  (minByKey (score i) (termData rows t)).getD default

theorem maxByKey_eq_some_topRecord (rows : List Record) (t : String) (i : ℕ)
    (h : termData rows t ≠ []) :
    maxByKey (score i) (termData rows t) = some (topRecord rows t i) := by
  cases hm : maxByKey (score i) (termData rows t) with
  | none => exact absurd ((maxByKey_eq_none_iff _ _).mp hm) h
  | some r => rw [topRecord, hm]; rfl

theorem minByKey_eq_some_bottomRecord (rows : List Record) (t : String) (i : ℕ)
    (h : termData rows t ≠ []) :
    minByKey (score i) (termData rows t) = some (bottomRecord rows t i) := by
  cases hm : minByKey (score i) (termData rows t) with
  | none => exact absurd ((minByKey_eq_none_iff _ _).mp hm) h
  | some r => rw [bottomRecord, hm]; rfl

theorem highBlock_of_ne (rows : List Record) (t : String) (h : termData rows t ≠ []) :
    highBlock rows t = subjects.enum.map (fun p =>
      ⟨t, p.2, (topRecord rows t p.1).sid, score p.1 (topRecord rows t p.1)⟩) := by
  rw [highBlock]
  exact filterMap_eq_map_of_forall _ (fun p _ => by
    rw [maxByKey_eq_some_topRecord rows t p.1 h]
    rfl)

theorem lowBlock_of_ne (rows : List Record) (t : String) (h : termData rows t ≠ []) :
    lowBlock rows t = subjects.enum.map (fun p =>
      ⟨t, p.2, (bottomRecord rows t p.1).sid, score p.1 (bottomRecord rows t p.1)⟩) := by
  rw [lowBlock]
  exact filterMap_eq_map_of_forall _ (fun p _ => by
    rw [minByKey_eq_some_bottomRecord rows t p.1 h]
    rfl)

theorem highBlock_of_nil (rows : List Record) (t : String) (h : termData rows t = []) :
    highBlock rows t = [] := by
  rw [highBlock, List.filterMap_eq_nil_iff]
  intro p _
  rw [h]
  rfl

theorem lowBlock_of_nil (rows : List Record) (t : String) (h : termData rows t = []) :
    lowBlock rows t = [] := by
  rw [lowBlock, List.filterMap_eq_nil_iff]
  intro p _
  rw [h]
  rfl

theorem highBlock_length (rows : List Record) (t : String) :
    (highBlock rows t).length = if termData rows t = [] then 0 else 8 := by
  by_cases h : termData rows t = []
  · rw [if_pos h, highBlock_of_nil rows t h, List.length_nil]
  · rw [if_neg h, highBlock_of_ne rows t h, List.length_map, List.enum_length]
    rfl

theorem lowBlock_length (rows : List Record) (t : String) :
    (lowBlock rows t).length = if termData rows t = [] then 0 else 8 := by
  by_cases h : termData rows t = []
  · rw [if_pos h, lowBlock_of_nil rows t h, List.length_nil]
  · rw [if_neg h, lowBlock_of_ne rows t h, List.length_map, List.enum_length]
    rfl

/-! ### The trend analysis under a non-zero term-1 hypothesis -/

/-- Spec form of `analyze_performance_trends` on the non-error path
(spec sections 3 and 4.5): one entry per subject in fixed order,
exactly for the subjects whose term-1 and term-2 class averages both
exist, with the rounded percent change. -/
def trendsSpec (rows : List Record) : List (String × ℚ) :=
  subjects.filterMap (fun s =>
    match (calculate_class_averages rows).find? (fun a => decide (a.term = "1" ∧ a.subject = s)),
          (calculate_class_averages rows).find? (fun a => decide (a.term = "2" ∧ a.subject = s)) with
    | some a1, some a2 => some (s, round2 ((a2.avg - a1.avg) / a1.avg * 100))
    | _, _ => none)

theorem trends_foldlM_ok (rows : List Record)
    (h : ∀ a ∈ calculate_class_averages rows, a.term = "1" → a.avg ≠ 0) :
    ∀ (sl : List String) (acc : List (String × ℚ)),
      sl.foldlM (fun acc subject =>
        match (calculate_class_averages rows).find?
            (fun avg => decide (avg.term = "1" ∧ avg.subject = subject)),
          (calculate_class_averages rows).find?
            (fun avg => decide (avg.term = "2" ∧ avg.subject = subject)) with
        | some a1, some a2 =>
            if a1.avg = 0 then Except.error ()
            else Except.ok (acc ++ [(subject, round2 ((a2.avg - a1.avg) / a1.avg * 100))])
        | _, _ => Except.ok acc) acc =
      Except.ok (acc ++ sl.filterMap (fun s =>
        match (calculate_class_averages rows).find?
            (fun a => decide (a.term = "1" ∧ a.subject = s)),
          (calculate_class_averages rows).find?
            (fun a => decide (a.term = "2" ∧ a.subject = s)) with
        | some a1, some a2 => some (s, round2 ((a2.avg - a1.avg) / a1.avg * 100))
        | _, _ => none)) := by
  intro sl
  induction sl with
  | nil =>
    intro acc
    rw [List.foldlM_nil, List.filterMap_nil, List.append_nil]
    rfl
  | cons s sl ih =>
    intro acc
    rw [List.foldlM_cons, List.filterMap_cons]
    cases h1 : (calculate_class_averages rows).find?
        (fun a => decide (a.term = "1" ∧ a.subject = s)) with
    | none =>
      cases h2 : (calculate_class_averages rows).find?
          (fun a => decide (a.term = "2" ∧ a.subject = s)) with
      | none => exact ih acc
      | some a2 => exact ih acc
    | some a1 =>
      cases h2 : (calculate_class_averages rows).find?
          (fun a => decide (a.term = "2" ∧ a.subject = s)) with
      | none => exact ih acc
      | some a2 =>
        have ha1 : a1.avg ≠ 0 := by
          have hmem := List.mem_of_find?_eq_some h1
          have hp := List.find?_some h1
          simp only [decide_eq_true_eq] at hp
          exact h a1 hmem hp.1
        show (if a1.avg = 0 then Except.error ()
          else Except.ok (acc ++ [(s, round2 ((a2.avg - a1.avg) / a1.avg * 100))])) >>=
            (fun b => sl.foldlM _ b) = _
        rw [if_neg ha1]
        have := ih (acc ++ [(s, round2 ((a2.avg - a1.avg) / a1.avg * 100))])
        rw [List.append_assoc] at this
        exact this

theorem analyze_performance_trends_ok (rows : List Record)
    (h : ∀ a ∈ calculate_class_averages rows, a.term = "1" → a.avg ≠ 0) :
    analyze_performance_trends rows = Except.ok (trendsSpec rows) := by
  have hfold := trends_foldlM_ok rows h subjects []
  rw [List.nil_append] at hfold
  simp only [analyze_performance_trends]
  rw [hfold, trendsSpec]

/-! ### Alignment of the two extremum identifiers -/

theorem blockAligned (rows : List Record) (t : String) (k : ℕ) (eh el : Achiever)
    (hh : (highBlock rows t)[k]? = some eh) (hl : (lowBlock rows t)[k]? = some el) :
    eh.term = el.term ∧ eh.subject = el.subject ∧ el.score ≤ eh.score := by
  by_cases htd : termData rows t = []
  · rw [highBlock_of_nil rows t htd] at hh
    simp at hh
  · rw [highBlock_of_ne rows t htd, List.getElem?_map] at hh
    rw [lowBlock_of_ne rows t htd, List.getElem?_map] at hl
    cases hq : subjects.enum[k]? with
    | none =>
      rw [hq] at hh
      simp at hh
    | some p =>
      rw [hq] at hh hl
      have hh2 : some (⟨t, p.2, (topRecord rows t p.1).sid,
          score p.1 (topRecord rows t p.1)⟩ : Achiever) = some eh := hh
      have hl2 : some (⟨t, p.2, (bottomRecord rows t p.1).sid,
          score p.1 (bottomRecord rows t p.1)⟩ : Achiever) = some el := hl
      have heh : eh = ⟨t, p.2, (topRecord rows t p.1).sid, score p.1 (topRecord rows t p.1)⟩ :=
        ((Option.some.injEq _ _).mp hh2).symm
      have hel : el = ⟨t, p.2, (bottomRecord rows t p.1).sid, score p.1 (bottomRecord rows t p.1)⟩ :=
        ((Option.some.injEq _ _).mp hl2).symm
      subst heh
      subst hel
      refine ⟨rfl, rfl, ?_⟩
      have hmax := maxByKey_eq_some_topRecord rows t p.1 htd
      have hmin := minByKey_eq_some_bottomRecord rows t p.1 htd
      exact maxByKey_le hmax _ (minByKey_mem hmin)

theorem identify_lengths_eq (rows : List Record) :
    (identify_highest_achieving_students rows).length =
      (identify_lowest_achieving_students rows).length := by
  rw [identify_high_eq_append, identify_low_eq_append, List.length_append,
    List.length_append, highBlock_length, highBlock_length, lowBlock_length, lowBlock_length]

theorem identify_aligned (rows : List Record) (k : ℕ) (eh el : Achiever)
    (hh : (identify_highest_achieving_students rows)[k]? = some eh)
    (hl : (identify_lowest_achieving_students rows)[k]? = some el) :
    eh.term = el.term ∧ eh.subject = el.subject ∧ el.score ≤ eh.score := by
  rw [identify_high_eq_append, List.getElem?_append] at hh
  rw [identify_low_eq_append, List.getElem?_append] at hl
  have hlen : (lowBlock rows "1").length = (highBlock rows "1").length := by
    rw [highBlock_length, lowBlock_length]
  by_cases hk : k < (highBlock rows "1").length
  · rw [if_pos hk] at hh
    rw [if_pos (hlen ▸ hk)] at hl
    exact blockAligned rows "1" k eh el hh hl
  · rw [if_neg hk] at hh
    rw [if_neg (hlen ▸ hk)] at hl
    rw [hlen] at hl
    exact blockAligned rows "2" (k - (highBlock rows "1").length) eh el hh hl

/-! ### Output lengths of the three (term, subject) aggregators -/

/-- The number of terms among `"1"`, `"2"` with at least one record. -/
def termsWithRecords (rows : List Record) : ℕ :=
  ((["1", "2"] : List String).filter (fun t => decide (termData rows t ≠ []))).length

theorem class_averages_length_eq (rows : List Record) :
    (calculate_class_averages rows).length = 8 * termsWithRecords rows := by
  rw [calculate_class_averages_length, termsWithRecords]
  by_cases h1 : termData rows "1" = [] <;> by_cases h2 : termData rows "2" = [] <;>
    simp [List.filter, h1, h2]

theorem identify_high_length_eq (rows : List Record) :
    (identify_highest_achieving_students rows).length = 8 * termsWithRecords rows := by
  rw [identify_high_eq_append, List.length_append, highBlock_length, highBlock_length,
    termsWithRecords]
  by_cases h1 : termData rows "1" = [] <;> by_cases h2 : termData rows "2" = [] <;>
    simp [List.filter, h1, h2]

theorem identify_low_length_eq (rows : List Record) :
    (identify_lowest_achieving_students rows).length = 8 * termsWithRecords rows := by
  rw [identify_low_eq_append, List.length_append, lowBlock_length, lowBlock_length,
    termsWithRecords]
  by_cases h1 : termData rows "1" = [] <;> by_cases h2 : termData rows "2" = [] <;>
    simp [List.filter, h1, h2]

/-! ### Membership and uniqueness in the extremum identifiers -/

theorem subjects_nodup : subjects.Nodup := by decide

theorem mem_highBlock_term (rows : List Record) (t : String) (e : Achiever)
    (he : e ∈ highBlock rows t) : e.term = t := by
  rcases List.mem_filterMap.mp he with ⟨p, _, hfe⟩
  cases hm : maxByKey (score p.1) (termData rows t) with
  | none => rw [hm] at hfe; exact absurd hfe (by simp)
  | some r =>
    rw [hm] at hfe
    have h2 : some (⟨t, p.2, r.sid, score p.1 r⟩ : Achiever) = some e := hfe
    rw [← (Option.some.injEq _ _).mp h2]

theorem mem_lowBlock_term (rows : List Record) (t : String) (e : Achiever)
    (he : e ∈ lowBlock rows t) : e.term = t := by
  rcases List.mem_filterMap.mp he with ⟨p, _, hfe⟩
  cases hm : minByKey (score p.1) (termData rows t) with
  | none => rw [hm] at hfe; exact absurd hfe (by simp)
  | some r =>
    rw [hm] at hfe
    have h2 : some (⟨t, p.2, r.sid, score p.1 r⟩ : Achiever) = some e := hfe
    rw [← (Option.some.injEq _ _).mp h2]

theorem highBlock_mem_intro (rows : List Record) (t : String) (i : ℕ) (s : String) (r : Record)
    (hs : subjects[i]? = some s) (hm : maxByKey (score i) (termData rows t) = some r) :
    (⟨t, s, r.sid, score i r⟩ : Achiever) ∈ highBlock rows t := by
  apply List.mem_filterMap.mpr
  refine ⟨(i, s), List.mk_mem_enum_iff_getElem?.mpr hs, ?_⟩
  show (maxByKey (score i) (termData rows t)).map
    (fun r => (⟨t, s, r.sid, score i r⟩ : Achiever)) = _
  rw [hm]
  rfl

theorem lowBlock_mem_intro (rows : List Record) (t : String) (i : ℕ) (s : String) (r : Record)
    (hs : subjects[i]? = some s) (hm : minByKey (score i) (termData rows t) = some r) :
    (⟨t, s, r.sid, score i r⟩ : Achiever) ∈ lowBlock rows t := by
  apply List.mem_filterMap.mpr
  refine ⟨(i, s), List.mk_mem_enum_iff_getElem?.mpr hs, ?_⟩
  show (minByKey (score i) (termData rows t)).map
    (fun r => (⟨t, s, r.sid, score i r⟩ : Achiever)) = _
  rw [hm]
  rfl

theorem subjects_index_unique {i j : ℕ} {s : String}
    (hi : subjects[i]? = some s) (hj : subjects[j]? = some s) : i = j := by
  rcases List.getElem?_eq_some_iff.mp hi with ⟨hi', hgi⟩
  rcases List.getElem?_eq_some_iff.mp hj with ⟨hj', hgj⟩
  exact (List.Nodup.getElem_inj_iff subjects_nodup).mp (hgi.trans hgj.symm)

theorem highBlock_mem_unique (rows : List Record) (t : String) (i : ℕ) (s : String)
    (r : Record) (e : Achiever) (hs : subjects[i]? = some s)
    (hm : maxByKey (score i) (termData rows t) = some r)
    (he : e ∈ highBlock rows t) (hsub : e.subject = s) :
    e = ⟨t, s, r.sid, score i r⟩ := by
  rcases List.mem_filterMap.mp he with ⟨p, hp, hfe⟩
  cases hm2 : maxByKey (score p.1) (termData rows t) with
  | none => rw [hm2] at hfe; exact absurd hfe (by simp)
  | some r2 =>
    rw [hm2] at hfe
    have h2 : some (⟨t, p.2, r2.sid, score p.1 r2⟩ : Achiever) = some e := hfe
    have he2 : e = ⟨t, p.2, r2.sid, score p.1 r2⟩ := ((Option.some.injEq _ _).mp h2).symm
    have hps : subjects[p.1]? = some p.2 := List.mk_mem_enum_iff_getElem?.mp (by
      have : (p.1, p.2) = p := rfl
      rw [this]
      exact hp)
    have hsub2 : p.2 = s := by rw [← hsub, he2]
    rw [hsub2] at hps
    have hij : p.1 = i := subjects_index_unique hps hs
    rw [hij] at hm2 he2
    rw [hm2] at hm
    have hr : r2 = r := (Option.some.injEq _ _).mp hm
    rw [he2, hr, hsub2]

theorem lowBlock_mem_unique (rows : List Record) (t : String) (i : ℕ) (s : String)
    (r : Record) (e : Achiever) (hs : subjects[i]? = some s)
    (hm : minByKey (score i) (termData rows t) = some r)
    (he : e ∈ lowBlock rows t) (hsub : e.subject = s) :
    e = ⟨t, s, r.sid, score i r⟩ := by
  rcases List.mem_filterMap.mp he with ⟨p, hp, hfe⟩
  cases hm2 : minByKey (score p.1) (termData rows t) with
  | none => rw [hm2] at hfe; exact absurd hfe (by simp)
  | some r2 =>
    rw [hm2] at hfe
    have h2 : some (⟨t, p.2, r2.sid, score p.1 r2⟩ : Achiever) = some e := hfe
    have he2 : e = ⟨t, p.2, r2.sid, score p.1 r2⟩ := ((Option.some.injEq _ _).mp h2).symm
    have hps : subjects[p.1]? = some p.2 := List.mk_mem_enum_iff_getElem?.mp (by
      have : (p.1, p.2) = p := rfl
      rw [this]
      exact hp)
    have hsub2 : p.2 = s := by rw [← hsub, he2]
    rw [hsub2] at hps
    have hij : p.1 = i := subjects_index_unique hps hs
    rw [hij] at hm2 he2
    rw [hm2] at hm
    have hr : r2 = r := (Option.some.injEq _ _).mp hm
    rw [he2, hr, hsub2]

/-! ### Counting entries of the student-average aggregation -/

theorem countP_flatMap {α β : Type _} (p : β → Bool) (f : α → List β) :
    ∀ l : List α, (l.flatMap f).countP p = (l.map (fun a => (f a).countP p)).sum := by
  intro l
  induction l with
  | nil => rfl
  | cons x xs ih =>
    rw [List.flatMap_cons, List.countP_append, List.map_cons, List.sum_cons, ih]

theorem sum_map_eq_single {γ : Type _} [DecidableEq γ] (g : γ → ℕ) (k0 : γ) :
    ∀ K : List γ, K.Nodup → (∀ k ∈ K, k ≠ k0 → g k = 0) →
      (K.map g).sum = if k0 ∈ K then g k0 else 0 := by
  intro K
  induction K with
  | nil => intro _ _; simp
  | cons a K ih =>
    intro hnd h0
    rw [List.map_cons, List.sum_cons]
    by_cases ha : a = k0
    · subst ha
      have hz : ∀ k ∈ K, g k = 0 := fun k hk =>
        h0 k (by simp [hk]) (fun hc => (List.nodup_cons.mp hnd).1 (hc ▸ hk))
      have hsum : (K.map g).sum = 0 :=
        List.sum_eq_zero (fun x hx => by
          rcases List.mem_map.mp hx with ⟨k, hk, rfl⟩
          exact hz k hk)
      rw [hsum, if_pos (by simp)]
      omega
    · have hva : g a = 0 := h0 a (by simp) ha
      have := ih (List.nodup_cons.mp hnd).2 (fun k hk h => h0 k (by simp [hk]) h)
      rw [hva, this]
      by_cases hk0 : k0 ∈ K
      · rw [if_pos hk0, if_pos (by simp [hk0])]
        omega
      · rw [if_neg hk0, if_neg (by
          simp only [List.mem_cons]
          rintro (hc | hc)
          · exact ha hc.symm
          · exact hk0 hc)]

theorem sum_map_add_eq {γ : Type _} [DecidableEq γ] (f g : γ → ℕ) (k0 : γ) :
    ∀ K : List γ, K.Nodup → k0 ∈ K → (∀ k ∈ K, k ≠ k0 → g k = f k) →
      (K.map g).sum + f k0 = (K.map f).sum + g k0 := by
  intro K
  induction K with
  | nil => intro _ h; exact absurd h (by simp)
  | cons a K ih =>
    intro hnd hmem hsame
    rw [List.map_cons, List.map_cons, List.sum_cons, List.sum_cons]
    rcases List.mem_cons.mp hmem with rfl | hmem2
    · have hall : ∀ k ∈ K, g k = f k := fun k hk =>
        hsame k (by simp [hk]) (fun hc => (List.nodup_cons.mp hnd).1 (hc ▸ hk))
      rw [List.map_congr_left hall]
      omega
    · have ha : a ≠ k0 := fun hc => (List.nodup_cons.mp hnd).1 (hc ▸ hmem2)
      rw [hsame a (by simp) ha]
      have := ih (List.nodup_cons.mp hnd).2 hmem2 (fun k hk h => hsame k (by simp [hk]) h)
      omega

theorem pushNew_length {γ : Type _} [DecidableEq γ] (acc : List γ) (x : γ) :
    (pushNew acc x).length = if x ∈ acc then acc.length else acc.length + 1 := by
  by_cases h : x ∈ acc <;> simp [pushNew, h]

/-- The distinct `(student_id, term)` pairs of the input, in order of
first occurrence. -/
def distinctPairs (rows : List Record) : List (String × String) :=
  firstOccFrom [] (rows.map (fun r => (r.sid, r.term)))

theorem studentOrder_append (rows : List Record) (r : Record) :
    studentOrder (rows ++ [r]) = pushNew (studentOrder rows) r.sid := by
  rw [studentOrder, studentOrder, List.map_append]
  exact firstOccFrom_append_singleton _ _ _

theorem distinctPairs_append (rows : List Record) (r : Record) :
    distinctPairs (rows ++ [r]) = pushNew (distinctPairs rows) (r.sid, r.term) := by
  rw [distinctPairs, distinctPairs, List.map_append]
  exact firstOccFrom_append_singleton _ _ _

theorem studentTerms_append_self (rows : List Record) (r : Record) :
    studentTerms (rows ++ [r]) r.sid = pushNew (studentTerms rows r.sid) r.term := by
  rw [studentTerms, studentTerms, List.filter_append]
  have h1 : List.filter (fun x => decide (x.sid = r.sid)) [r] = [r] := by
    simp [List.filter]
  rw [h1, List.map_append]
  exact firstOccFrom_append_singleton _ _ _

theorem studentTerms_append_other (rows : List Record) (r : Record) (sid : String)
    (h : ¬ sid = r.sid) :
    studentTerms (rows ++ [r]) sid = studentTerms rows sid := by
  rw [studentTerms, studentTerms, List.filter_append]
  have h0 : decide (r.sid = sid) = false := by
    simp only [decide_eq_false_iff_not]
    exact fun hc => h hc.symm
  have h1 : List.filter (fun x => decide (x.sid = sid)) [r] = [] := by
    simp [List.filter, h0]
  rw [h1, List.append_nil]

theorem mem_studentOrder (rows : List Record) (sid : String) :
    sid ∈ studentOrder rows ↔ ∃ row ∈ rows, row.sid = sid := by
  rw [studentOrder, mem_firstOccFrom]
  simp [List.mem_map]

theorem mem_studentTerms (rows : List Record) (sid t : String) :
    t ∈ studentTerms rows sid ↔ ∃ row ∈ rows, row.sid = sid ∧ row.term = t := by
  rw [studentTerms, mem_firstOccFrom]
  simp only [List.mem_nil_iff, false_or, List.mem_map, List.mem_filter,
    decide_eq_true_eq]
  constructor
  · rintro ⟨row, ⟨hrow, hsid⟩, hterm⟩
    exact ⟨row, hrow, hsid, hterm⟩
  · rintro ⟨row, hrow, hsid, hterm⟩
    exact ⟨row, ⟨hrow, hsid⟩, hterm⟩

theorem mem_distinctPairs (rows : List Record) (sid t : String) :
    (sid, t) ∈ distinctPairs rows ↔ ∃ row ∈ rows, row.sid = sid ∧ row.term = t := by
  rw [distinctPairs, mem_firstOccFrom]
  simp only [List.mem_nil_iff, false_or, List.mem_map, Prod.mk.injEq]

theorem sum_studentTerms_eq_pairs (rows : List Record) :
    ((studentOrder rows).map (fun sid => (studentTerms rows sid).length)).sum
      = (distinctPairs rows).length := by
  induction rows using List.reverseRecOn with
  | nil => rfl
  | append_singleton rows r ih =>
    rw [studentOrder_append, distinctPairs_append, pushNew_length]
    by_cases hmem : r.sid ∈ studentOrder rows
    · have hpn : pushNew (studentOrder rows) r.sid = studentOrder rows := by
        unfold pushNew
        rw [if_pos hmem]
      rw [hpn]
      have hsame : ∀ k ∈ studentOrder rows, k ≠ r.sid →
          (fun sid => (studentTerms (rows ++ [r]) sid).length) k =
            (fun sid => (studentTerms rows sid).length) k := by
        intro k _ hk
        show (studentTerms (rows ++ [r]) k).length = (studentTerms rows k).length
        rw [studentTerms_append_other rows r k hk]
      have hnd : (studentOrder rows).Nodup := nodup_firstOccFrom _ _ List.nodup_nil
      have key := sum_map_add_eq (fun sid => (studentTerms rows sid).length)
        (fun sid => (studentTerms (rows ++ [r]) sid).length) r.sid (studentOrder rows)
        hnd hmem hsame
      have hg : (studentTerms (rows ++ [r]) r.sid).length =
          if r.term ∈ studentTerms rows r.sid then (studentTerms rows r.sid).length
          else (studentTerms rows r.sid).length + 1 := by
        rw [studentTerms_append_self, pushNew_length]
      have hpair : ((r.sid, r.term) ∈ distinctPairs rows) ↔
          (r.term ∈ studentTerms rows r.sid) := by
        rw [mem_distinctPairs, mem_studentTerms]
      by_cases hterm : r.term ∈ studentTerms rows r.sid
      · rw [if_pos (hpair.mpr hterm)]
        rw [if_pos hterm] at hg
        simp only at key
        omega
      · rw [if_neg (fun hc => hterm (hpair.mp hc))]
        rw [if_neg hterm] at hg
        simp only at key
        omega
    · have hpn : pushNew (studentOrder rows) r.sid = studentOrder rows ++ [r.sid] := by
        unfold pushNew
        rw [if_neg hmem]
      rw [hpn, List.map_append, List.sum_append]
      have hcong : (studentOrder rows).map (fun sid => (studentTerms (rows ++ [r]) sid).length)
          = (studentOrder rows).map (fun sid => (studentTerms rows sid).length) := by
        refine List.map_congr_left (fun k hk => ?_)
        have hk2 : ¬ k = r.sid := fun hc => hmem (hc ▸ hk)
        show (studentTerms (rows ++ [r]) k).length = (studentTerms rows k).length
        rw [studentTerms_append_other rows r k hk2]
      rw [hcong]
      have hempty : studentTerms rows r.sid = [] := by
        cases hq : studentTerms rows r.sid with
        | nil => rfl
        | cons a l =>
          exfalso
          have ha : a ∈ studentTerms rows r.sid := by rw [hq]; simp
          rcases (mem_studentTerms rows r.sid a).mp ha with ⟨row, hrow, hsid, _⟩
          exact hmem ((mem_studentOrder rows r.sid).mpr ⟨row, hrow, hsid⟩)
      have hg : (studentTerms (rows ++ [r]) r.sid).length = 1 := by
        rw [studentTerms_append_self, hempty]
        simp [pushNew]
      have hpair : ¬ (r.sid, r.term) ∈ distinctPairs rows := by
        rw [mem_distinctPairs]
        rintro ⟨row, hrow, hsid, _⟩
        exact hmem ((mem_studentOrder rows r.sid).mpr ⟨row, hrow, hsid⟩)
      rw [if_neg hpair]
      simp only [List.map_cons, List.map_nil, List.sum_cons, List.sum_nil]
      omega

theorem lastScores_mem (rows : List Record) (sid t : String)
    (ht : t ∈ studentTerms rows sid) :
    ∃ r, (rows.filter (fun x => decide (x.sid = sid ∧ x.term = t))).getLast? = some r ∧
      r ∈ rows ∧ lastScores rows sid t = r.scores := by
  rcases (mem_studentTerms rows sid t).mp ht with ⟨row, hrow, hsid, hterm⟩
  have hfil : rows.filter (fun x => decide (x.sid = sid ∧ x.term = t)) ≠ [] := by
    intro hc
    rw [List.filter_eq_nil_iff] at hc
    exact hc row hrow (by simp [hsid, hterm])
  cases hq : (rows.filter (fun x => decide (x.sid = sid ∧ x.term = t))).getLast? with
  | none =>
    have := List.getLast?_isSome.mpr hfil
    rw [hq] at this
    simp at this
  | some r =>
    refine ⟨r, rfl, ?_, ?_⟩
    · exact List.mem_of_mem_filter (List.mem_of_mem_getLast? hq)
    · rw [lastScores, hq]

theorem calculate_student_averages_map (rows : List Record)
    (hwf : ∀ r ∈ rows, r.scores.length = 8) :
    calculate_student_averages rows = (studentOrder rows).flatMap (fun sid =>
      (studentTerms rows sid).map (fun t =>
        ⟨t, sid, (lastScores rows sid t).sum / ((lastScores rows sid t).length : ℚ)⟩)) := by
  rw [calculate_student_averages_spec]
  congr 1
  funext sid
  refine filterMap_eq_map_of_forall _ (fun t ht => ?_)
  rcases lastScores_mem rows sid t ht with ⟨r, _, hrmem, hsc⟩
  have hne : lastScores rows sid t ≠ [] := by
    rw [hsc]
    intro hc
    have h8 := hwf r hrmem
    rw [hc] at h8
    simp at h8
  rw [if_pos hne]

theorem countP_eq_mem {γ : Type _} [DecidableEq γ] (t : γ) :
    ∀ (l : List γ), l.Nodup →
      l.countP (fun x => decide (x = t)) = if t ∈ l then 1 else 0 := by
  intro l
  induction l with
  | nil => intro _; simp
  | cons a l ih =>
    intro hnd
    rw [List.countP_cons, ih (List.nodup_cons.mp hnd).2]
    by_cases ha : a = t
    · subst ha
      have hnm : ¬ a ∈ l := (List.nodup_cons.mp hnd).1
      simp [hnm]
    · have hta : ¬ t = a := fun hc => ha hc.symm
      by_cases ht : t ∈ l <;> simp [ha, hta, ht]

theorem countP_ext {α : Type _} {p q : α → Bool} :
    ∀ l : List α, (∀ a ∈ l, p a = q a) → l.countP p = l.countP q := by
  intro l
  induction l with
  | nil => intro _; rfl
  | cons a l ih =>
    intro h
    rw [List.countP_cons, List.countP_cons, h a (by simp),
      ih (fun x hx => h x (by simp [hx]))]

theorem student_avgs_countP (rows : List Record)
    (hwf : ∀ r ∈ rows, r.scores.length = 8) (sid t : String) :
    (calculate_student_averages rows).countP
        (fun e => decide (e.sid = sid ∧ e.term = t)) =
      if ∃ row ∈ rows, row.sid = sid ∧ row.term = t then 1 else 0 := by
  rw [calculate_student_averages_map rows hwf, countP_flatMap]
  have hnd : (studentOrder rows).Nodup := nodup_firstOccFrom _ _ List.nodup_nil
  have hzero : ∀ k ∈ studentOrder rows, k ≠ sid →
      (fun k => (((studentTerms rows k).map (fun t2 =>
        (⟨t2, k, (lastScores rows k t2).sum / ((lastScores rows k t2).length : ℚ)⟩ :
          StudentAvg))).countP (fun e => decide (e.sid = sid ∧ e.term = t)))) k = 0 := by
    intro k _ hk
    show ((studentTerms rows k).map _).countP _ = 0
    rw [List.countP_map, List.countP_eq_zero]
    intro t2 _
    simp only [Function.comp_apply, decide_eq_true_eq]
    rintro ⟨hc, _⟩
    exact hk hc
  rw [sum_map_eq_single _ sid (studentOrder rows) hnd hzero]
  have hsidcount : (((studentTerms rows sid).map (fun t2 =>
      (⟨t2, sid, (lastScores rows sid t2).sum / ((lastScores rows sid t2).length : ℚ)⟩ :
        StudentAvg))).countP (fun e => decide (e.sid = sid ∧ e.term = t))) =
      if t ∈ studentTerms rows sid then 1 else 0 := by
    rw [List.countP_map]
    have hext : ∀ t2 ∈ studentTerms rows sid,
        ((fun e => decide (e.sid = sid ∧ e.term = t)) ∘ (fun t2 =>
          (⟨t2, sid, (lastScores rows sid t2).sum /
            ((lastScores rows sid t2).length : ℚ)⟩ : StudentAvg))) t2 =
          (fun x => decide (x = t)) t2 := by
      intro t2 _
      simp
    have hndT : (studentTerms rows sid).Nodup := by
      rw [studentTerms]
      exact nodup_firstOccFrom _ _ List.nodup_nil
    rw [countP_ext _ hext, countP_eq_mem t (studentTerms rows sid) hndT]
  by_cases hex : ∃ row ∈ rows, row.sid = sid ∧ row.term = t
  · rcases hex with ⟨row, hrow, hsid', hterm'⟩
    have hmemS : sid ∈ studentOrder rows :=
      (mem_studentOrder rows sid).mpr ⟨row, hrow, hsid'⟩
    have hmemT : t ∈ studentTerms rows sid :=
      (mem_studentTerms rows sid t).mpr ⟨row, hrow, hsid', hterm'⟩
    rw [if_pos hmemS, hsidcount, if_pos hmemT, if_pos ⟨row, hrow, hsid', hterm'⟩]
  · rw [if_neg hex]
    by_cases hmemS : sid ∈ studentOrder rows
    · rw [if_pos hmemS, hsidcount, if_neg (fun hc =>
        hex ((mem_studentTerms rows sid t).mp hc))]
    · rw [if_neg hmemS]

theorem student_avgs_value (rows : List Record)
    (hwf : ∀ r ∈ rows, r.scores.length = 8) (e : StudentAvg)
    (he : e ∈ calculate_student_averages rows) :
    ∃ r, (rows.filter (fun x => decide (x.sid = e.sid ∧ x.term = e.term))).getLast? = some r ∧
      e.avg = r.scores.sum / 8 := by
  rw [calculate_student_averages_map rows hwf] at he
  rcases List.mem_flatMap.mp he with ⟨sid, _, he2⟩
  rcases List.mem_map.mp he2 with ⟨t, ht, rfl⟩
  rcases lastScores_mem rows sid t ht with ⟨r, hq, hrmem, hsc⟩
  refine ⟨r, hq, ?_⟩
  show (lastScores rows sid t).sum / ((lastScores rows sid t).length : ℚ) = r.scores.sum / 8
  rw [hsc, hwf r hrmem]
  norm_num

theorem student_avgs_length_le (rows : List Record) :
    (calculate_student_averages rows).length ≤ (distinctPairs rows).length := by
  rw [calculate_student_averages_spec, ← sum_studentTerms_eq_pairs, List.length_flatMap]
  apply List.sum_le_sum
  intro sid _
  calc ((studentTerms rows sid).filterMap _).length
      ≤ (studentTerms rows sid).length := List.length_filterMap_le _ _
    _ = _ := rfl

theorem student_avgs_length_eq (rows : List Record)
    (hne : ∀ sid t r,
      (rows.filter (fun x => decide (x.sid = sid ∧ x.term = t))).getLast? = some r →
        r.scores ≠ []) :
    (calculate_student_averages rows).length = (distinctPairs rows).length := by
  rw [calculate_student_averages_spec, ← sum_studentTerms_eq_pairs, List.length_flatMap]
  congr 1
  refine List.map_congr_left (fun sid _ => ?_)
  have hforall : ∀ t ∈ studentTerms rows sid,
      (fun t => if lastScores rows sid t ≠ [] then
        some (⟨t, sid, (lastScores rows sid t).sum /
          ((lastScores rows sid t).length : ℚ)⟩ : StudentAvg)
      else none) t =
      some ⟨t, sid, (lastScores rows sid t).sum /
        ((lastScores rows sid t).length : ℚ)⟩ := by
    intro t ht
    rcases lastScores_mem rows sid t ht with ⟨r, hq, _, hsc⟩
    have hnil : lastScores rows sid t ≠ [] := by
      rw [hsc]
      exact hne sid t r hq
    show (if lastScores rows sid t ≠ [] then
        some (⟨t, sid, (lastScores rows sid t).sum /
          ((lastScores rows sid t).length : ℚ)⟩ : StudentAvg)
      else none) =
      some ⟨t, sid, (lastScores rows sid t).sum /
        ((lastScores rows sid t).length : ℚ)⟩
    rw [if_pos hnil]
  show (List.length ∘ (fun sid => (studentTerms rows sid).filterMap (fun t =>
      if lastScores rows sid t ≠ [] then
        some (⟨t, sid, (lastScores rows sid t).sum /
          ((lastScores rows sid t).length : ℚ)⟩ : StudentAvg)
      else none))) sid = (studentTerms rows sid).length
  simp only [Function.comp_apply]
  rw [filterMap_eq_map_of_forall _ hforall, List.length_map]

/-! ### Locating a (term, subject) entry among the class averages -/

theorem find_classBlock_self (rows : List Record) (t s : String) (i : ℕ)
    (hs : subjects[i]? = some s) :
    ((subjects.enum.filterMap (fun p =>
        if rows.any (fun r => decide (r.term = t)) then
          some (⟨t, p.2, classAvgAt rows t p.1⟩ : ClassAvg)
        else none)).find? (fun a => decide (a.term = t ∧ a.subject = s))) =
      if rows.any (fun r => decide (r.term = t)) then
        some ⟨t, s, classAvgAt rows t i⟩
      else none := by
  by_cases hany : rows.any (fun r => decide (r.term = t)) = true
  · rw [if_pos hany, filterMap_eq_map_of_forall _ (fun p _ => by rw [if_pos hany]),
      List.find?_map]
    have hext : ∀ p ∈ subjects.enum,
        ((fun a => decide (a.term = t ∧ a.subject = s)) ∘
          (fun p => (⟨t, p.2, classAvgAt rows t p.1⟩ : ClassAvg))) p =
        (fun p : ℕ × String => decide (p.2 = s)) p := by
      intro p _
      simp
    rw [find?_congr _ hext]
    have hi : i < subjects.length := by
      rcases List.getElem?_eq_some_iff.mp hs with ⟨hi, _⟩
      exact hi
    have hi8 : i < 8 := hi
    have hfind : subjects.enum.find? (fun p : ℕ × String => decide (p.2 = s)) = some (i, s) := by
      interval_cases i <;> (simp [subjects] at hs; subst hs; decide)
    rw [hfind]
    rfl
  · rw [if_neg hany, List.filterMap_eq_nil_iff.mpr (fun p _ => by rw [if_neg hany])]
    rfl

theorem find_classBlock_other (rows : List Record) (tb t s : String) (hne : ¬ tb = t) :
    ((subjects.enum.filterMap (fun p =>
        if rows.any (fun r => decide (r.term = tb)) then
          some (⟨tb, p.2, classAvgAt rows tb p.1⟩ : ClassAvg)
        else none)).find? (fun a => decide (a.term = t ∧ a.subject = s))) = none := by
  rw [List.find?_eq_none]
  intro a ha
  rcases List.mem_filterMap.mp ha with ⟨p, _, hfa⟩
  by_cases hany : rows.any (fun r => decide (r.term = tb)) = true
  · rw [if_pos hany] at hfa
    have h2 : some (⟨tb, p.2, classAvgAt rows tb p.1⟩ : ClassAvg) = some a := hfa
    have ha2 : a = ⟨tb, p.2, classAvgAt rows tb p.1⟩ := ((Option.some.injEq _ _).mp h2).symm
    simp only [decide_eq_true_eq]
    rintro ⟨hterm, _⟩
    rw [ha2] at hterm
    exact hne hterm
  · rw [if_neg hany] at hfa
    exact absurd hfa (by simp)

theorem find_CA (rows : List Record) (t s : String) (i : ℕ)
    (ht : t = "1" ∨ t = "2") (hs : subjects[i]? = some s) :
    (calculate_class_averages rows).find? (fun a => decide (a.term = t ∧ a.subject = s)) =
      if rows.any (fun r => decide (r.term = t)) then
        some ⟨t, s, classAvgAt rows t i⟩
      else none := by
  rw [calculate_class_averages_eq_spec, classAveragesSpec, List.flatMap_cons,
    List.flatMap_cons, List.flatMap_nil, List.append_nil, List.find?_append]
  rcases ht with rfl | rfl
  · rw [find_classBlock_self rows "1" s i hs,
      find_classBlock_other rows "2" "1" s (by decide)]
    by_cases hany : rows.any (fun r => decide (r.term = "1")) = true <;> simp [hany]
  · rw [find_classBlock_self rows "2" s i hs,
      find_classBlock_other rows "1" "2" s (by decide)]
    by_cases hany : rows.any (fun r => decide (r.term = "2")) = true <;> simp [hany]

/-- Spec form of the trend list (spec sections 3 and 4.5), phrased
directly from the class-average means: one entry per subject in fixed
order, present exactly when both terms have records (so both class
averages exist), valued at the rounded percent change. -/
def trendsFromAverages (rows : List Record) : List (String × ℚ) :=
  subjects.enum.filterMap (fun p =>
    if (rows.any (fun r => decide (r.term = "1")) = true) ∧
        (rows.any (fun r => decide (r.term = "2")) = true) then
      some (p.2, round2 ((classAvgAt rows "2" p.1 - classAvgAt rows "1" p.1) /
        classAvgAt rows "1" p.1 * 100))
    else none)

theorem filterMap_congr_mem {α β : Type _} {f g : α → Option β} :
    ∀ l : List α, (∀ a ∈ l, f a = g a) → l.filterMap f = l.filterMap g := by
  intro l
  induction l with
  | nil => intro _; rfl
  | cons a l ih =>
    intro h
    rw [List.filterMap_cons, List.filterMap_cons, h a (by simp),
      ih (fun x hx => h x (by simp [hx]))]

theorem trendsSpec_eq (rows : List Record) :
    trendsSpec rows = trendsFromAverages rows := by
  rw [trendsSpec, trendsFromAverages]
  conv_lhs => rw [← List.enum_map_snd subjects]
  rw [List.filterMap_map]
  refine filterMap_congr_mem _ (fun p hp => ?_)
  have hps : subjects[p.1]? = some p.2 := List.mk_mem_enum_iff_getElem?.mp (by
    have h2 : (p.1, p.2) = p := rfl
    rw [h2]
    exact hp)
  show (match (calculate_class_averages rows).find?
        (fun a => decide (a.term = "1" ∧ a.subject = p.2)),
      (calculate_class_averages rows).find?
        (fun a => decide (a.term = "2" ∧ a.subject = p.2)) with
    | some a1, some a2 => some (p.2, round2 ((a2.avg - a1.avg) / a1.avg * 100))
    | _, _ => none) = _
  rw [find_CA rows "1" p.2 p.1 (Or.inl rfl) hps, find_CA rows "2" p.2 p.1 (Or.inr rfl) hps]
  by_cases h1 : rows.any (fun r => decide (r.term = "1")) = true <;>
    by_cases h2 : rows.any (fun r => decide (r.term = "2")) = true <;>
      simp [h1, h2]

theorem analyze_trends_spec (rows : List Record)
    (h : ∀ a ∈ calculate_class_averages rows, a.term = "1" → a.avg ≠ 0) :
    analyze_performance_trends rows = Except.ok (trendsFromAverages rows) := by
  rw [analyze_performance_trends_ok rows h, trendsSpec_eq]

/-! ### Spec-level wrappers for the extremum identifiers -/

theorem identify_high_spec (rows : List Record) (t : String) (i : ℕ) (s : String)
    (ht : t = "1" ∨ t = "2") (hs : subjects[i]? = some s) (r : Record)
    (hm : maxByKey (score i) (termData rows t) = some r) :
    (⟨t, s, r.sid, score i r⟩ : Achiever) ∈ identify_highest_achieving_students rows ∧
    ∀ e ∈ identify_highest_achieving_students rows,
      e.term = t → e.subject = s → e = ⟨t, s, r.sid, score i r⟩ := by
  constructor
  · rw [identify_high_eq_append]
    rcases ht with rfl | rfl
    · exact List.mem_append.mpr (Or.inl (highBlock_mem_intro rows "1" i s r hs hm))
    · exact List.mem_append.mpr (Or.inr (highBlock_mem_intro rows "2" i s r hs hm))
  · intro e he hterm hsub
    rw [identify_high_eq_append] at he
    rcases List.mem_append.mp he with hb | hb
    · have h1 := mem_highBlock_term rows "1" e hb
      rcases ht with rfl | rfl
      · exact highBlock_mem_unique rows "1" i s r e hs hm hb hsub
      · rw [hterm] at h1
        exact absurd h1 (by decide)
    · have h1 := mem_highBlock_term rows "2" e hb
      rcases ht with rfl | rfl
      · rw [hterm] at h1
        exact absurd h1 (by decide)
      · exact highBlock_mem_unique rows "2" i s r e hs hm hb hsub

theorem identify_low_spec (rows : List Record) (t : String) (i : ℕ) (s : String)
    (ht : t = "1" ∨ t = "2") (hs : subjects[i]? = some s) (r : Record)
    (hm : minByKey (score i) (termData rows t) = some r) :
    (⟨t, s, r.sid, score i r⟩ : Achiever) ∈ identify_lowest_achieving_students rows ∧
    ∀ e ∈ identify_lowest_achieving_students rows,
      e.term = t → e.subject = s → e = ⟨t, s, r.sid, score i r⟩ := by
  constructor
  · rw [identify_low_eq_append]
    rcases ht with rfl | rfl
    · exact List.mem_append.mpr (Or.inl (lowBlock_mem_intro rows "1" i s r hs hm))
    · exact List.mem_append.mpr (Or.inr (lowBlock_mem_intro rows "2" i s r hs hm))
  · intro e he hterm hsub
    rw [identify_low_eq_append] at he
    rcases List.mem_append.mp he with hb | hb
    · have h1 := mem_lowBlock_term rows "1" e hb
      rcases ht with rfl | rfl
      · exact lowBlock_mem_unique rows "1" i s r e hs hm hb hsub
      · rw [hterm] at h1
        exact absurd h1 (by decide)
    · have h1 := mem_lowBlock_term rows "2" e hb
      rcases ht with rfl | rfl
      · rw [hterm] at h1
        exact absurd h1 (by decide)
      · exact lowBlock_mem_unique rows "2" i s r e hs hm hb hsub

theorem identify_high_no_entry (rows : List Record) (t s : String)
    (ht : t = "1" ∨ t = "2") (hnil : termData rows t = []) :
    ∀ e ∈ identify_highest_achieving_students rows, ¬ (e.term = t ∧ e.subject = s) := by
  intro e he
  rintro ⟨hterm, _⟩
  rw [identify_high_eq_append] at he
  rcases ht with rfl | rfl
  · rcases List.mem_append.mp he with hb | hb
    · rw [highBlock_of_nil rows "1" hnil] at hb
      simp at hb
    · have h1 := mem_highBlock_term rows "2" e hb
      rw [hterm] at h1
      exact absurd h1 (by decide)
  · rcases List.mem_append.mp he with hb | hb
    · have h1 := mem_highBlock_term rows "1" e hb
      rw [hterm] at h1
      exact absurd h1 (by decide)
    · rw [highBlock_of_nil rows "2" hnil] at hb
      simp at hb

theorem identify_low_no_entry (rows : List Record) (t s : String)
    (ht : t = "1" ∨ t = "2") (hnil : termData rows t = []) :
    ∀ e ∈ identify_lowest_achieving_students rows, ¬ (e.term = t ∧ e.subject = s) := by
  intro e he
  rintro ⟨hterm, _⟩
  rw [identify_low_eq_append] at he
  rcases ht with rfl | rfl
  · rcases List.mem_append.mp he with hb | hb
    · rw [lowBlock_of_nil rows "1" hnil] at hb
      simp at hb
    · have h1 := mem_lowBlock_term rows "2" e hb
      rw [hterm] at h1
      exact absurd h1 (by decide)
  · rcases List.mem_append.mp he with hb | hb
    · have h1 := mem_lowBlock_term rows "1" e hb
      rw [hterm] at h1
      exact absurd h1 (by decide)
    · rw [lowBlock_of_nil rows "2" hnil] at hb
      simp at hb

/-! ### Concrete datasets used by the claims -/

/-- One term-1 record with the score vector of the spec example. -/
def exSingle : List Record := [⟨"s1", "1", [90, 80, 70, 60, 50, 40, 30, 20]⟩]

/-- A dataset whose term-1 class averages are all zero while term-2
averages exist. -/
def exZeroTermOne : List Record :=
  [⟨"z1", "1", [0, 0, 0, 0, 0, 0, 0, 0]⟩, ⟨"z2", "2", [1, 1, 1, 1, 1, 1, 1, 1]⟩]

/-- Class averages 50 in term 1 and 75 in term 2 for every subject. -/
def exTrend : List Record :=
  [⟨"a", "1", [50, 50, 50, 50, 50, 50, 50, 50]⟩,
   ⟨"b", "2", [75, 75, 75, 75, 75, 75, 75, 75]⟩]

/-- Two term-1 students; student A has Math score 95, student B 40. -/
def exTwo : List Record :=
  [⟨"A", "1", [10, 20, 95, 40, 50, 60, 70, 80]⟩,
   ⟨"B", "1", [15, 25, 40, 45, 55, 65, 75, 85]⟩]

/-- A duplicate (student, term) pair, exercising last-write-wins. -/
def exDup : List Record :=
  [⟨"A", "1", [0, 0, 0, 0, 0, 0, 0, 0]⟩,
   ⟨"A", "1", [8, 8, 8, 8, 8, 8, 8, 8]⟩,
   ⟨"A", "2", [4, 4, 4, 4, 4, 4, 4, 4]⟩]


/-! ### Evaluation of the concrete datasets -/

theorem subjects_enum_eval : subjects.enum =
    [(0, "Chi"), (1, "Eng"), (2, "Math"), (3, "GS"),
     (4, "CS"), (5, "Music"), (6, "VA"), (7, "PE")] := by decide

theorem exSingle_CA : calculate_class_averages exSingle =
    [⟨"1", "Chi", 90⟩, ⟨"1", "Eng", 80⟩, ⟨"1", "Math", 70⟩, ⟨"1", "GS", 60⟩,
     ⟨"1", "CS", 50⟩, ⟨"1", "Music", 40⟩, ⟨"1", "VA", 30⟩, ⟨"1", "PE", 20⟩] := by
  rw [calculate_class_averages_eq_spec, classAveragesSpec, subjects_enum_eval]
  norm_num [classAvgAt, termData, score, exSingle, List.filter,
    List.filterMap_cons, List.filterMap_nil,
    show ¬ ("1" : String) = "2" from by decide]

theorem exZero_CA : calculate_class_averages exZeroTermOne =
    [⟨"1", "Chi", 0⟩, ⟨"1", "Eng", 0⟩, ⟨"1", "Math", 0⟩, ⟨"1", "GS", 0⟩,
     ⟨"1", "CS", 0⟩, ⟨"1", "Music", 0⟩, ⟨"1", "VA", 0⟩, ⟨"1", "PE", 0⟩,
     ⟨"2", "Chi", 1⟩, ⟨"2", "Eng", 1⟩, ⟨"2", "Math", 1⟩, ⟨"2", "GS", 1⟩,
     ⟨"2", "CS", 1⟩, ⟨"2", "Music", 1⟩, ⟨"2", "VA", 1⟩, ⟨"2", "PE", 1⟩] := by
  rw [calculate_class_averages_eq_spec, classAveragesSpec, subjects_enum_eval]
  norm_num [classAvgAt, termData, score, exZeroTermOne, List.filter,
    List.filterMap_cons, List.filterMap_nil,
    show ¬ ("1" : String) = "2" from by decide,
    show ¬ ("2" : String) = "1" from by decide]

theorem exTrend_CA : calculate_class_averages exTrend =
    [⟨"1", "Chi", 50⟩, ⟨"1", "Eng", 50⟩, ⟨"1", "Math", 50⟩, ⟨"1", "GS", 50⟩,
     ⟨"1", "CS", 50⟩, ⟨"1", "Music", 50⟩, ⟨"1", "VA", 50⟩, ⟨"1", "PE", 50⟩,
     ⟨"2", "Chi", 75⟩, ⟨"2", "Eng", 75⟩, ⟨"2", "Math", 75⟩, ⟨"2", "GS", 75⟩,
     ⟨"2", "CS", 75⟩, ⟨"2", "Music", 75⟩, ⟨"2", "VA", 75⟩, ⟨"2", "PE", 75⟩] := by
  rw [calculate_class_averages_eq_spec, classAveragesSpec, subjects_enum_eval]
  norm_num [classAvgAt, termData, score, exTrend, List.filter,
    List.filterMap_cons, List.filterMap_nil,
    show ¬ ("1" : String) = "2" from by decide,
    show ¬ ("2" : String) = "1" from by decide]

theorem exZero_error : analyze_performance_trends exZeroTermOne = Except.error () := by
  simp only [analyze_performance_trends]
  rw [exZero_CA]
  rfl

theorem exZero_mem1 : (⟨"1", "Chi", 0⟩ : ClassAvg) ∈ calculate_class_averages exZeroTermOne := by
  rw [exZero_CA]
  decide

theorem exZero_mem2 : (⟨"2", "Chi", 1⟩ : ClassAvg) ∈ calculate_class_averages exZeroTermOne := by
  rw [exZero_CA]
  decide

theorem exTrend_nonzero : ∀ a ∈ calculate_class_averages exTrend, a.term = "1" → a.avg ≠ 0 := by
  rw [exTrend_CA]
  decide

theorem exTrend_trends : trendsFromAverages exTrend =
    [("Chi", 50), ("Eng", 50), ("Math", 50), ("GS", 50),
     ("CS", 50), ("Music", 50), ("VA", 50), ("PE", 50)] := by
  rw [trendsFromAverages, subjects_enum_eval]
  norm_num [classAvgAt, termData, score, exTrend, List.filter,
    List.filterMap_cons, List.filterMap_nil, round2, roundHalfEven,
    show ¬ ("1" : String) = "2" from by decide,
    show ¬ ("2" : String) = "1" from by decide]

theorem exTrend_math :
    ("Math", (50 : ℚ)) ∈ (analyze_performance_trends exTrend).toOption.getD [] := by
  rw [analyze_trends_spec exTrend exTrend_nonzero, exTrend_trends]
  decide

/-! ### The claims -/

/-- C1: `get_most_improved_student` considers exactly the students
with both a term-1 and a term-2 average entry, computes each
qualifying student's improvement as the term-2 average minus the
term-1 average (of the last entry for each slot), returns the
student id with maximal improvement with ties broken in favour of
the first student encountered in input iteration order, and returns
`none` when no student has both terms present. -/
theorem claim_C1_most_improved (l : List StudentAvg) :
    get_most_improved_student l = mostImprovedSpec l :=
  get_most_improved_student_spec l

/-- C2: on a dataset in which a subject has a zero term-1 class
average and a present term-2 class average,
`analyze_performance_trends` raises the division error rather than
skipping or producing a sentinel; on every dataset whose term-1
class averages are all non-zero, no error is raised. -/
theorem claim_C2_trend_divzero :
    ((⟨"1", "Chi", 0⟩ : ClassAvg) ∈ calculate_class_averages exZeroTermOne) ∧
    ((⟨"2", "Chi", 1⟩ : ClassAvg) ∈ calculate_class_averages exZeroTermOne) ∧
    analyze_performance_trends exZeroTermOne = Except.error () ∧
    (∀ rows : List Record,
      (∀ a ∈ calculate_class_averages rows, a.term = "1" → a.avg ≠ 0) →
        ∃ out, analyze_performance_trends rows = Except.ok out) :=
  ⟨exZero_mem1, exZero_mem2, exZero_error,
    fun rows h => ⟨trendsFromAverages rows, analyze_trends_spec rows h⟩⟩

theorem claim_C2_trend_divzero_witness :
    (∀ a ∈ calculate_class_averages exTrend, a.term = "1" → a.avg ≠ 0) ∧
    (∃ out, analyze_performance_trends exTrend = Except.ok out) :=
  ⟨exTrend_nonzero, claim_C2_trend_divzero.2.2.2 exTrend exTrend_nonzero⟩

/-- C3: on a dataset whose term-1 class averages are non-zero,
`analyze_performance_trends` returns one entry per subject in fixed
subject order, exactly for the subjects whose term-1 and term-2
class averages both exist, valued
`round(((t2 - t1) / t1) * 100, 2)`; in particular Math class
averages 50 and 75 yield the entry `("Math", 50)`. -/
theorem claim_C3_trends (rows : List Record)
    (h : ∀ a ∈ calculate_class_averages rows, a.term = "1" → a.avg ≠ 0) :
    analyze_performance_trends rows = Except.ok (trendsFromAverages rows) ∧
    ("Math", (50 : ℚ)) ∈ (analyze_performance_trends exTrend).toOption.getD [] :=
  ⟨analyze_trends_spec rows h, exTrend_math⟩

theorem claim_C3_trends_witness :
    (∀ a ∈ calculate_class_averages exTrend, a.term = "1" → a.avg ≠ 0) ∧
    (analyze_performance_trends exTrend = Except.ok (trendsFromAverages exTrend) ∧
      ("Math", (50 : ℚ)) ∈ (analyze_performance_trends exTrend).toOption.getD []) :=
  ⟨exTrend_nonzero, claim_C3_trends exTrend exTrend_nonzero⟩

/-- C4: `calculate_class_averages` returns exactly one entry per
(term, subject) combination with at least one record of that term,
valued at the mean of that subject over the records of the term,
ordered by the outer term loop `["1", "2"]` then the fixed subject
order, omitting combinations with no contributing record; on the
single-record example it yields the eight listed entries. -/
theorem claim_C4_class_averages :
    (∀ rows : List Record, calculate_class_averages rows = classAveragesSpec rows) ∧
    calculate_class_averages exSingle =
      [⟨"1", "Chi", 90⟩, ⟨"1", "Eng", 80⟩, ⟨"1", "Math", 70⟩, ⟨"1", "GS", 60⟩,
       ⟨"1", "CS", 50⟩, ⟨"1", "Music", 40⟩, ⟨"1", "VA", 30⟩, ⟨"1", "PE", 20⟩] :=
  ⟨calculate_class_averages_eq_spec, exSingle_CA⟩

/-- C5: for every (term, subject) pair with at least one record in
that term, each identifier returns exactly one entry for the pair,
carrying the student id and score of the first record (in filtered
order) attaining the extremal score at that subject's fixed index;
pairs with no record of the term produce no entry. -/
theorem claim_C5_extremum (rows : List Record) (t s : String) (i : ℕ)
    (ht : t = "1" ∨ t = "2") (hs : subjects[i]? = some s) :
    (∀ r, (termData rows t).find?
        (fun y => decide (∀ z ∈ termData rows t, score i z ≤ score i y)) = some r →
      ((⟨t, s, r.sid, score i r⟩ : Achiever) ∈ identify_highest_achieving_students rows ∧
        ∀ e ∈ identify_highest_achieving_students rows,
          e.term = t → e.subject = s → e = ⟨t, s, r.sid, score i r⟩)) ∧
    (∀ r, (termData rows t).find?
        (fun y => decide (∀ z ∈ termData rows t, score i y ≤ score i z)) = some r →
      ((⟨t, s, r.sid, score i r⟩ : Achiever) ∈ identify_lowest_achieving_students rows ∧
        ∀ e ∈ identify_lowest_achieving_students rows,
          e.term = t → e.subject = s → e = ⟨t, s, r.sid, score i r⟩)) ∧
    (termData rows t ≠ [] →
      (∃ r, (termData rows t).find?
        (fun y => decide (∀ z ∈ termData rows t, score i z ≤ score i y)) = some r) ∧
      (∃ r, (termData rows t).find?
        (fun y => decide (∀ z ∈ termData rows t, score i y ≤ score i z)) = some r)) ∧
    (termData rows t = [] →
      (∀ e ∈ identify_highest_achieving_students rows, ¬ (e.term = t ∧ e.subject = s)) ∧
      (∀ e ∈ identify_lowest_achieving_students rows, ¬ (e.term = t ∧ e.subject = s))) := by
  refine ⟨?_, ?_, ?_, ?_⟩
  · intro r hr
    have hm : maxByKey (score i) (termData rows t) = some r := by
      rw [maxByKey_eq_find?]
      exact hr
    exact identify_high_spec rows t i s ht hs r hm
  · intro r hr
    have hm : minByKey (score i) (termData rows t) = some r := by
      rw [minByKey_eq_find?]
      exact hr
    exact identify_low_spec rows t i s ht hs r hm
  · intro hne
    constructor
    · exact ⟨topRecord rows t i, by
        rw [← maxByKey_eq_find?]
        exact maxByKey_eq_some_topRecord rows t i hne⟩
    · exact ⟨bottomRecord rows t i, by
        rw [← minByKey_eq_find?]
        exact minByKey_eq_some_bottomRecord rows t i hne⟩
  · intro hnil
    exact ⟨identify_high_no_entry rows t s ht hnil, identify_low_no_entry rows t s ht hnil⟩

theorem claim_C5_extremum_witness :
    (⟨"1", "Math", "A", 95⟩ : Achiever) ∈ identify_highest_achieving_students exTwo ∧
    (⟨"1", "Math", "B", 40⟩ : Achiever) ∈ identify_lowest_achieving_students exTwo := by
  have h := claim_C5_extremum exTwo "1" "Math" 2 (Or.inl rfl) (by decide)
  have hr1 := (h.1 ⟨"A", "1", [10, 20, 95, 40, 50, 60, 70, 80]⟩ (by decide)).1
  have hr2 := (h.2.1 ⟨"B", "1", [15, 25, 40, 45, 55, 65, 75, 85]⟩ (by decide)).1
  exact ⟨hr1, hr2⟩

/-- C6: `calculate_student_averages` groups by (student_id, term)
with last-write-wins: the output has exactly one entry per distinct
pair occurring in the input, and each entry's average is the mean of
the 8 scores of the last record seen for that pair. -/
theorem claim_C6_student_averages (rows : List Record)
    (hwf : ∀ r ∈ rows, r.scores.length = 8) :
    (∀ sid t : String,
      (calculate_student_averages rows).countP
          (fun e => decide (e.sid = sid ∧ e.term = t)) =
        if ∃ row ∈ rows, row.sid = sid ∧ row.term = t then 1 else 0) ∧
    (∀ e ∈ calculate_student_averages rows,
      ∃ r, (rows.filter (fun x => decide (x.sid = e.sid ∧ x.term = e.term))).getLast? =
          some r ∧
        e.avg = r.scores.sum / 8) :=
  ⟨fun sid t => student_avgs_countP rows hwf sid t,
   fun e he => student_avgs_value rows hwf e he⟩

theorem claim_C6_student_averages_witness :
    (∀ r ∈ exDup, r.scores.length = 8) ∧
    (calculate_student_averages exDup).countP
        (fun e => decide (e.sid = "A" ∧ e.term = "1")) =
      if ∃ row ∈ exDup, row.sid = "A" ∧ row.term = "1" then 1 else 0 :=
  ⟨by decide, (claim_C6_student_averages exDup (by decide)).1 "A" "1"⟩

/-- C7: the number of entries of `calculate_student_averages` is at
most the number of distinct (student_id, term) pairs of the input,
with equality whenever every group's kept score list is non-empty. -/
theorem claim_C7_output_count (rows : List Record) :
    (calculate_student_averages rows).length ≤ (distinctPairs rows).length ∧
    ((∀ sid t r,
      (rows.filter (fun x => decide (x.sid = sid ∧ x.term = t))).getLast? = some r →
        r.scores ≠ []) →
      (calculate_student_averages rows).length = (distinctPairs rows).length) :=
  ⟨student_avgs_length_le rows, student_avgs_length_eq rows⟩

theorem claim_C7_output_count_witness :
    (calculate_student_averages exDup).length ≤ (distinctPairs exDup).length ∧
    (calculate_student_averages exDup).length = (distinctPairs exDup).length := by
  have h := claim_C7_output_count exDup
  refine ⟨h.1, h.2 ?_⟩
  intro sid t r hr
  have hrmem : r ∈ exDup := List.mem_of_mem_filter (List.mem_of_mem_getLast? hr)
  have hcase : r = (⟨"A", "1", [0, 0, 0, 0, 0, 0, 0, 0]⟩ : Record) ∨
      r = ⟨"A", "1", [8, 8, 8, 8, 8, 8, 8, 8]⟩ ∨
      r = ⟨"A", "2", [4, 4, 4, 4, 4, 4, 4, 4]⟩ := by
    simpa [exDup] using hrmem
  rcases hcase with rfl | rfl | rfl <;> decide

/-- C8: on the empty dataset every aggregator returns the empty list,
`analyze_performance_trends` returns an empty (non-error) result, and
`get_most_improved_student` on the empty average list returns
`none`. -/
theorem claim_C8_empty :
    calculate_student_averages [] = [] ∧
    calculate_class_averages [] = [] ∧
    identify_highest_achieving_students [] = [] ∧
    identify_lowest_achieving_students [] = [] ∧
    analyze_performance_trends [] = Except.ok [] ∧
    get_most_improved_student [] = none :=
  ⟨rfl, rfl, rfl, rfl, rfl, rfl⟩

/-- C9: on well-formed records, each term among `"1"`, `"2"` with at
least one record contributes entries for all 8 subjects, so
`calculate_class_averages`, `identify_highest_achieving_students`
and `identify_lowest_achieving_students` all have length 8 times the
number of terms with records; a (term, subject) pair can never be
individually missing while another subject of the same term is
present. -/
theorem claim_C9_output_lengths (rows : List Record)
    (hwf : ∀ r ∈ rows, r.scores.length = 8) :
    (calculate_class_averages rows).length = 8 * termsWithRecords rows ∧
    (identify_highest_achieving_students rows).length = 8 * termsWithRecords rows ∧
    (identify_lowest_achieving_students rows).length = 8 * termsWithRecords rows :=
  ⟨class_averages_length_eq rows, identify_high_length_eq rows,
    identify_low_length_eq rows⟩

theorem claim_C9_output_lengths_witness :
    (∀ r ∈ exTwo, r.scores.length = 8) ∧
    (calculate_class_averages exTwo).length = 8 * termsWithRecords exTwo :=
  ⟨by decide, (claim_C9_output_lengths exTwo (by decide)).1⟩

/-- C10: the outputs of the two extremum identifiers have the same
length, agree position-by-position on (term, subject), and at every
position the lowest achiever's score is at most the highest
achiever's score. -/
theorem claim_C10_high_low_aligned (rows : List Record) :
    (identify_highest_achieving_students rows).length =
      (identify_lowest_achieving_students rows).length ∧
    (∀ (k : ℕ) (eh el : Achiever),
      (identify_highest_achieving_students rows)[k]? = some eh →
      (identify_lowest_achieving_students rows)[k]? = some el →
        eh.term = el.term ∧ eh.subject = el.subject ∧ el.score ≤ eh.score) :=
  ⟨identify_lengths_eq rows, fun k eh el hh hl => identify_aligned rows k eh el hh hl⟩

theorem claim_C10_high_low_aligned_witness :
    ((identify_highest_achieving_students exTwo).length =
      (identify_lowest_achieving_students exTwo).length) ∧
    ((⟨"1", "Chi", "B", 15⟩ : Achiever).term = (⟨"1", "Chi", "A", 10⟩ : Achiever).term ∧
      (⟨"1", "Chi", "B", 15⟩ : Achiever).subject =
        (⟨"1", "Chi", "A", 10⟩ : Achiever).subject ∧
      (⟨"1", "Chi", "A", 10⟩ : Achiever).score ≤ (⟨"1", "Chi", "B", 15⟩ : Achiever).score) := by
  have h := claim_C10_high_low_aligned exTwo
  exact ⟨h.1, h.2 0 ⟨"1", "Chi", "B", 15⟩ ⟨"1", "Chi", "A", 10⟩ (by decide) (by decide)⟩
